import Mathlib

/-! JsonRpcProtocol (namespace faf): a shallow embedding

The engine of `src/JsonRpcProtocol.cpp`: the handler table `mCallbacks`, the
pending table `mCurrentRequests`, the id counter `mCurrentId`, and the three
entry points `setRpcCallback`, `sendRequest` and `parseMessage` (with its
helper `processRequest`).

Modelling decisions, each visible in the definitions below:

* `Json::Value`, `Json::Reader` and `Json::FastWriter` are library code outside
  the repository. A JSON value is the inductive type `Json` (floating-point
  numbers are left out); the reader is the field `parse` of `World`; the writer
  is not modelled: a send event carries the envelope that is serialised.
* Handlers and continuations are `std::function` objects. They are named by
  the elements of two types `H` and `K`, and `World` says what a call of each
  does: a handler returns a `(result, error)` pair or raises an exception, a
  continuation returns or raises. They do not call back into the engine.
* Every effect that leaves the engine is recorded, in order, in a trace of
  `Event`s: handler calls, continuation calls, `sendJson` and `socket->send`.
* `mCurrentId` and the integers inside JSON values are unbounded integers.
* `std::map` is a function from keys to optional values.
-/

namespace faf

/-- A JSON value, after the value kinds of `Json::Value` in the order of its
`ValueType` (unsigned and real numbers left out). -/
inductive Json where
  | null
  | int (value : Int)
  | str (text : String)
  | bool (flag : Bool)
  | arr (items : List Json)
  | obj (fields : List (String × Json))

namespace Json

/-- Search of the members of an object for a key. -/
def lookup (key : String) : List (String × Json) → Option Json
  | [] => none
  | (k, v) :: ms => if k = key then some v else lookup key ms

/-- Replace the value stored under a key, or add the key when it is new. -/
def setMember (key : String) (val : Json) : List (String × Json) → List (String × Json)
  | [] => [(key, val)]
  | (k, v) :: ms => if k = key then (k, val) :: ms else (k, v) :: setMember key val ms

/-- The test `Json::Value::isNull`. -/
def isNull : Json → Bool
  | .null => true
  | _ => false

/-- The test `Json::Value::isArray`. -/
def isArray : Json → Bool
  | .arr _ => true
  | _ => false

/-- The test `Json::Value::isString`. -/
def isString : Json → Bool
  | .str _ => true
  | _ => false

/-- The test `Json::Value::isInt` (no machine bound on the integer). -/
def isInt : Json → Bool
  | .int _ => true
  | _ => false

/-- The conversion `Json::Value::asInt`, used in the source only after `isInt`. -/
def asInt : Json → Int
  | .int n => n
  | _ => 0

/-- Total key test: whether the value is an object that has the key. -/
def hasMember (v : Json) (key : String) : Bool :=
  match v with
  | .obj ms => (lookup key ms).isSome
  | _ => false

/-- The test `Json::Value::isMember`. The library answers for an object and for
null (which has no member) and raises an exception for every other kind of
value; `none` stands for that exception. -/
def isMember (v : Json) (key : String) : Option Bool :=
  match v with
  | .obj ms => some (lookup key ms).isSome
  | .null => some false
  | _ => none

/-- Read access `value[key]`: the member, or null when there is none. Every use
in the source is guarded by `isMember`. -/
def get (v : Json) (key : String) : Json :=
  match v with
  | .obj ms => (lookup key ms).getD .null
  | _ => .null

/-- Write access `value[key] = val`: a null value becomes an object first. -/
def set (v : Json) (key : String) (val : Json) : Json :=
  match v with
  | .obj ms => .obj (setMember key val ms)
  | _ => .obj [(key, val)]

/-- Nested write access `value[outer][inner] = val`. -/
def setNested (v : Json) (outer inner : String) (val : Json) : Json :=
  v.set outer ((v.get outer).set inner val)

end Json

/-- What a call of a handler does: it returns, having set its two out
parameters `result` and `error` (both null before the call), or it raises. -/
inductive HandlerOutcome where
  | returned (result error : Json)
  | raised

/-- The collaborators of the engine: the JSON reader and the behaviour of the
callbacks. `callContinuation k result error` is `true` when the continuation
returns and `false` when it raises an exception. -/
structure World (H K : Type) where
  parse : List Char → Option Json
  callHandler : H → Json → HandlerOutcome
  callContinuation : K → Json → Json → Bool

/-- An effect that leaves the engine. -/
inductive Event (H K : Type) where
  | sendJson (envelope : Json)
  | socketSend (envelope : Json)
  | handler (h : H) (params : Json)
  | continuation (k : K) (result error : Json)

/-- The state of a `JsonRpcProtocol` object. -/
structure JsonRpcProtocol (H K : Type) where
  mCallbacks : String → Option H
  mCurrentRequests : Int → Option K
  mCurrentId : Int

/-- The outcome of one call into the engine: the state after it, the effects in
order, and whether an exception was raised inside it. -/
structure CallResult (H K : Type) where
  st : JsonRpcProtocol H K
  trace : List (Event H K)
  raised : Bool

/-- The outcome of a `parseMessage` call: the state and `msgBuffer` after it,
the effects in order, and whether the catch block ran. -/
structure PassResult (H K : Type) where
  st : JsonRpcProtocol H K
  buffer : List Char
  trace : List (Event H K)
  caught : Bool

/-! A small JSON reader

`Json::Reader` is library code; the theorems below hold for every reader, the
field `parse` of `World`. To evaluate the engine on concrete text, this reader
for compact JSON (null, booleans, integers, strings without escapes, arrays and
objects, no white space) stands in for it.
-/

namespace SampleReader

/-- Decimal digits in front of the text, added to the number read so far. -/
def readDigits (acc : Nat) : List Char → Nat × List Char
  | [] => (acc, [])
  | c :: cs =>
    if c.isDigit then readDigits (acc * 10 + (c.toNat - 48)) cs else (acc, c :: cs)

/-- The characters of a string up to its closing quote. -/
def readString (acc : List Char) : List Char → Option (String × List Char)
  | [] => none
  | c :: cs => if c = '\"' then some (String.mk acc.reverse, cs) else readString (c :: acc) cs

mutual

/-- One JSON value in front of the text, and the text after it. -/
def readValue : Nat → List Char → Option (Json × List Char)
  | 0, _ => none
  | fuel + 1, cs =>
    match cs with
    | 'n' :: 'u' :: 'l' :: 'l' :: rest => some (Json.null, rest)
    | 't' :: 'r' :: 'u' :: 'e' :: rest => some (Json.bool true, rest)
    | 'f' :: 'a' :: 'l' :: 's' :: 'e' :: rest => some (Json.bool false, rest)
    | '\"' :: rest =>
      match readString [] rest with
      | some (s, after) => some (Json.str s, after)
      | none => none
    | '[' :: ']' :: rest => some (Json.arr [], rest)
    | '[' :: rest =>
      match readElements fuel rest with
      | some (vs, after) => some (Json.arr vs, after)
      | none => none
    | '{' :: '}' :: rest => some (Json.obj [], rest)
    | '{' :: rest =>
      match readMembers fuel rest with
      | some (ms, after) => some (Json.obj ms, after)
      | none => none
    | '-' :: c :: rest =>
      if c.isDigit then
        some (Json.int (-((readDigits 0 (c :: rest)).1 : Int)), (readDigits 0 (c :: rest)).2)
      else none
    | c :: rest =>
      if c.isDigit then
        some (Json.int ((readDigits 0 (c :: rest)).1 : Int), (readDigits 0 (c :: rest)).2)
      else none
    | [] => none

/-- The elements of an array after its opening bracket, up to the closing one. -/
def readElements : Nat → List Char → Option (List Json × List Char)
  | 0, _ => none
  | fuel + 1, cs =>
    match readValue fuel cs with
    | some (v, ',' :: rest) =>
      match readElements fuel rest with
      | some (vs, after) => some (v :: vs, after)
      | none => none
    | some (v, ']' :: rest) => some ([v], rest)
    | _ => none

/-- The members of an object after its opening brace, up to the closing one. -/
def readMembers : Nat → List Char → Option (List (String × Json) × List Char)
  | 0, _ => none
  | fuel + 1, cs =>
    match cs with
    | '\"' :: rest =>
      match readString [] rest with
      | some (key, ':' :: rest2) =>
        match readValue fuel rest2 with
        | some (v, ',' :: rest3) =>
          match readMembers fuel rest3 with
          | some (ms, after) => some ((key, v) :: ms, after)
          | none => none
        | some (v, '}' :: rest3) => some ([(key, v)], rest3)
        | _ => none
      | _ => none
    | _ => none

end

/-- The reader: the whole document must be one JSON value. -/
def parse (doc : List Char) : Option Json :=
  match readValue (doc.length + 1) doc with
  | some (v, []) => some v
  | _ => none

end SampleReader

namespace JsonRpcProtocol

variable {H K : Type}

/-- The constructor: no handler, no pending request, `mCurrentId(0)`. -/
def init : JsonRpcProtocol H K :=
  { mCallbacks := fun _ => none, mCurrentRequests := fun _ => none, mCurrentId := 0 }

/-- The source function `setRpcCallback`: the binding is inserted only when
`find` does not find the method. -/
def setRpcCallback (st : JsonRpcProtocol H K) (method : String) (cb : H) :
    JsonRpcProtocol H K :=
  match st.mCallbacks method with
  | none => { st with mCallbacks := fun m => if m = method then some cb else st.mCallbacks m }
  | some _ => st

/-- The call `resultCb(Json::Value(), error)` under `if (resultCb)`. -/
def reportError (env : World H K) (st : JsonRpcProtocol H K) (before : List (Event H K))
    (resultCb : Option K) (error : Json) : CallResult H K :=
  match resultCb with
  | some k =>
    { st := st, trace := before ++ [Event.continuation k Json.null error],
      raised := !env.callContinuation k Json.null error }
  | none => { st := st, trace := before, raised := false }

/-- The source function `sendRequest`. `sendOk` is what `sendJson` returns for
this call; `resultCb` is `none` for an empty `std::function`. -/
def sendRequest (env : World H K) (st : JsonRpcProtocol H K) (method : String)
    (paramsArray : Json) (sendOk : Bool) (resultCb : Option K) : CallResult H K :=
  if !paramsArray.isArray then
    reportError env st [] resultCb (Json.str "paramsArray MUST be an array")
  else if method = "" then
    reportError env st [] resultCb (Json.str "method MUST not be empty")
  else
    let request := ((Json.null.set "jsonrpc" (Json.str "2.0")).set "method"
      (Json.str method)).set "params" paramsArray
    let next : JsonRpcProtocol H K × Json :=
      match resultCb with
      | some k =>
        ({ st with
            mCurrentRequests := fun i =>
              if i = st.mCurrentId then some k else st.mCurrentRequests i,
            mCurrentId := st.mCurrentId + 1 },
          request.set "id" (Json.int st.mCurrentId))
      | none => (st, request)
    if sendOk then
      { st := next.1, trace := [Event.sendJson next.2], raised := false }
    else
      reportError env next.1 [Event.sendJson next.2] resultCb (Json.str "send failed")

/-- The tail of `processRequest`: a non-null result goes into the envelope,
otherwise the error does. -/
def finishResponse (response result error : Json) : Json :=
  if !result.isNull then response.set "result" result else response.set "error" error

/-- The source function `processRequest`: the effects of the call and the
envelope it returns, `none` when an exception leaves the function. -/
def processRequest (env : World H K) (st : JsonRpcProtocol H K) (request : Json) :
    List (Event H K) × Option Json :=
  let response0 := Json.null.set "jsonrpc" (Json.str "2.0")
  match request.isMember "id" with
  | none => ([], none)
  | some hasId =>
    let response := if hasId then response0.set "id" (request.get "id") else response0
    if !request.hasMember "method" then
      ([], some ((response.setNested "error" "code" (Json.int (-1))).setNested "error" "message"
        (Json.str "missing \x27method\x27 parameter")))
    else
      match request.get "method" with
      | Json.str name =>
        let params :=
          if request.hasMember "params" && (request.get "params").isArray then
            request.get "params"
          else Json.arr []
        match st.mCallbacks name with
        | some h =>
          match env.callHandler h params with
          | HandlerOutcome.returned result error =>
            ([Event.handler h params], some (finishResponse response result error))
          | HandlerOutcome.raised => ([Event.handler h params], none)
        | none =>
          ([], some (finishResponse response Json.null
            (Json.str ("RPC callback for method \x27" ++ name ++ "\x27 not found"))))
      | _ =>
        ([], some ((response.setNested "error" "code" (Json.int (-1))).setNested "error" "message"
          (Json.str "\x27method\x27 parameter must be a string")))

/-- The response branch of the loop body of `parseMessage` (the message has no
"method" key and has an "error" or a "result" key). -/
def dispatchResponse (env : World H K) (st : JsonRpcProtocol H K) (jsonMessage : Json) :
    CallResult H K :=
  if jsonMessage.hasMember "id" then
    if (jsonMessage.get "id").isInt then
      match st.mCurrentRequests (jsonMessage.get "id").asInt with
      | some k =>
        let result := if jsonMessage.hasMember "result" then jsonMessage.get "result" else Json.null
        let error := if jsonMessage.hasMember "error" then jsonMessage.get "error" else Json.null
        if env.callContinuation k result error then
          { st := { st with
                mCurrentRequests := fun i =>
                  if i = (jsonMessage.get "id").asInt then none else st.mCurrentRequests i },
            trace := [Event.continuation k result error], raised := false }
        else
          { st := st, trace := [Event.continuation k result error], raised := true }
      | none => { st := st, trace := [], raised := false }
    else { st := st, trace := [], raised := false }
  else { st := st, trace := [], raised := false }

/-- The loop body of `parseMessage` for a document the reader accepted:
classification as request, response or neither, and the dispatch. -/
def dispatch (env : World H K) (st : JsonRpcProtocol H K) (jsonMessage : Json) :
    CallResult H K :=
  match jsonMessage.isMember "method" with
  | none => { st := st, trace := [], raised := true }
  | some true =>
    match processRequest env st jsonMessage with
    | (events, some response) =>
      if jsonMessage.hasMember "id" then
        { st := st, trace := events ++ [Event.socketSend response], raised := false }
      else { st := st, trace := events, raised := false }
    | (events, none) => { st := st, trace := events, raised := true }
  | some false =>
    if jsonMessage.hasMember "error" || jsonMessage.hasMember "result" then
      dispatchResponse env st jsonMessage
    else { st := st, trace := [], raised := false }

/-- One `std::getline(is, doc, (newline))` on the unread input: the document is
the text before the first newline, and the newline itself is consumed. -/
def getline (input : List Char) : List Char × List Char :=
  (input.takeWhile (fun c => c != '\n'), (input.dropWhile (fun c => c != '\n')).drop 1)

/-- The `while (true)` loop of `parseMessage` over the unread input of the
string stream. `msgBuffer` has been cleared before the loop, so it is empty
unless a document is stored. Every turn that goes on consumes a non-empty
document, so `fuel` larger than the length of the input is never used up. -/
def parseLoop (env : World H K) : Nat → List Char → JsonRpcProtocol H K → PassResult H K
  | 0, _, st => { st := st, buffer := [], trace := [], caught := false }
  | fuel + 1, input, st =>
    let doc := (getline input).1
    if doc.isEmpty then { st := st, buffer := [], trace := [], caught := false }
    else
      match env.parse doc with
      | none => { st := st, buffer := doc, trace := [], caught := false }
      | some jsonMessage =>
        let step := dispatch env st jsonMessage
        if step.raised then
          { st := step.st, buffer := [], trace := step.trace, caught := true }
        else
          let later := parseLoop env fuel (getline input).2 step.st
          { later with trace := step.trace ++ later.trace }

/-- The source function `parseMessage`: the buffer is read into a string
stream and cleared, then the loop runs. -/
def parseMessage (env : World H K) (st : JsonRpcProtocol H K) (msgBuffer : List Char) :
    PassResult H K :=
  parseLoop env (msgBuffer.length + 1) msgBuffer st

/-- A sequence of calls into one engine. -/
inductive Call (H K : Type) where
  | setRpcCallback (method : String) (cb : H)
  | sendRequest (method : String) (paramsArray : Json) (sendOk : Bool) (resultCb : Option K)
  | parseMessage (msgBuffer : List Char)

/-- The state after one call and the effects of the call. An exception that
leaves `sendRequest` is left to the caller; the state stays as the call left it. -/
def perform (env : World H K) (st : JsonRpcProtocol H K) :
    Call H K → JsonRpcProtocol H K × List (Event H K)
  | Call.setRpcCallback method cb => (st.setRpcCallback method cb, [])
  | Call.sendRequest method paramsArray sendOk resultCb =>
    ((sendRequest env st method paramsArray sendOk resultCb).st,
      (sendRequest env st method paramsArray sendOk resultCb).trace)
  | Call.parseMessage msgBuffer =>
    ((parseMessage env st msgBuffer).st, (parseMessage env st msgBuffer).trace)

/-- The state after a sequence of calls and all their effects in order. -/
def performAll (env : World H K) :
    JsonRpcProtocol H K → List (Call H K) → JsonRpcProtocol H K × List (Event H K)
  | st, [] => (st, [])
  | st, c :: cs =>
    ((performAll env (perform env st c).1 cs).1,
      (perform env st c).2 ++ (performAll env (perform env st c).1 cs).2)

/-- The dispatch of parsed documents one after the other, each in the state the
one before left: the state after the last and the effects in order. This is
what "classify and dispatch every line in order" means; `parseMessage` is
compared with it. -/
def dispatchAll (env : World H K) :
    JsonRpcProtocol H K → List Json → JsonRpcProtocol H K × List (Event H K)
  | st, [] => (st, [])
  | st, m :: ms =>
    ((dispatchAll env (dispatch env st m).st ms).1,
      (dispatch env st m).trace ++ (dispatchAll env (dispatch env st m).st ms).2)

/-- The buffer that holds the given lines, each followed by a newline. -/
def joinLines : List (List Char) → List Char
  | [] => []
  | l :: ls => l ++ '\n' :: joinLines ls

/-- Whether a call allocates an id: a `sendRequest` that passes both checks and
carries a continuation. -/
def allocatesId : Call H K → Bool
  | Call.sendRequest method paramsArray _ (some _) => paramsArray.isArray && decide (method ≠ "")
  | _ => false

/-- The handler calls of a trace, in order. -/
def handlerCalls : List (Event H K) → List (H × Json)
  | [] => []
  | Event.handler h params :: es => (h, params) :: handlerCalls es
  | _ :: es => handlerCalls es

/-- The continuation calls of a trace, in order. -/
def continuationCalls : List (Event H K) → List (K × Json × Json)
  | [] => []
  | Event.continuation k result error :: es => (k, result, error) :: continuationCalls es
  | _ :: es => continuationCalls es

/-- The envelopes handed to `sendJson` or to `socket->send`, in order. -/
def sends : List (Event H K) → List Json
  | [] => []
  | Event.sendJson envelope :: es => envelope :: sends es
  | Event.socketSend envelope :: es => envelope :: sends es
  | _ :: es => sends es

end JsonRpcProtocol

/-- A world for concrete evaluation in which no callback raises: the sample
reader; handlers named by strings, of which "fail" reports an error and every
other one returns its parameters as the result; continuations named by numbers. -/
def sampleWorld : World String Nat :=
  { parse := SampleReader.parse,
    callHandler := fun h params =>
      if h = "fail" then HandlerOutcome.returned Json.null (Json.str "failed")
      else HandlerOutcome.returned params Json.null,
    callContinuation := fun _ _ _ => true }

/-- A world for concrete evaluation with callbacks that raise: as `sampleWorld`,
but the handler "raise" and the continuation 99 raise an exception. -/
def raisingWorld : World String Nat :=
  { parse := SampleReader.parse,
    callHandler := fun h params =>
      if h = "raise" then HandlerOutcome.raised
      else if h = "fail" then HandlerOutcome.returned Json.null (Json.str "failed")
      else HandlerOutcome.returned params Json.null,
    callContinuation := fun k _ _ => k != 99 }

/-! Framing lemmas -/

section Framing

variable {H K : Type}

open JsonRpcProtocol

theorem getline_line (l rest : List Char) (h : '\n' ∉ l) :
    getline (l ++ '\n' :: rest) = (l, rest) := by
  induction l with
  | nil => simp [getline]
  | cons c cs ih =>
    have hc : c ≠ '\n' := fun e => h (by simp [e])
    have hcs : '\n' ∉ cs := fun e => h (by simp [e])
    have := ih hcs
    have hb : (c != '\n') = true := by simp [hc]
    simp only [getline, Prod.mk.injEq] at this ⊢
    simp only [List.cons_append, List.takeWhile_cons, List.dropWhile_cons, hb, ↓reduceIte,
      this.1, this.2, and_self]

theorem getline_last (l : List Char) (h : '\n' ∉ l) : getline l = (l, []) := by
  induction l with
  | nil => simp [getline]
  | cons c cs ih =>
    have hc : c ≠ '\n' := fun e => h (by simp [e])
    have hcs : '\n' ∉ cs := fun e => h (by simp [e])
    have := ih hcs
    have hb : (c != '\n') = true := by simp [hc]
    simp only [getline, Prod.mk.injEq] at this ⊢
    simp only [List.cons_append, List.takeWhile_cons, List.dropWhile_cons, hb, ↓reduceIte,
      this.1, this.2, and_self]

theorem getline_rest_length (input : List Char) (h : (getline input).1 ≠ []) :
    (getline input).2.length < input.length := by
  have hsplit := List.takeWhile_append_dropWhile (fun c => c != '\n') input
  have hlen := congrArg List.length hsplit
  have hpos : 0 < (List.takeWhile (fun c => c != '\n') input).length :=
    List.length_pos.mpr h
  simp only [List.length_append] at hlen
  simp only [getline, List.length_drop]
  omega

theorem parseLoop_fuel (env : World H K) :
    ∀ (f1 f2 : Nat) (input : List Char) (st : JsonRpcProtocol H K),
      input.length < f1 → input.length < f2 →
      parseLoop env f1 input st = parseLoop env f2 input st := by
  intro f1
  induction f1 with
  | zero => intro f2 input st h1; omega
  | succ a ih =>
    intro f2 input st h1 h2
    cases f2 with
    | zero => omega
    | succ b =>
      simp only [parseLoop]
      by_cases hd : (getline input).1.isEmpty = true
      · simp [hd]
      · have hne : (getline input).1 ≠ [] := by
          intro e; apply hd; simp [e]
        have hlt := getline_rest_length input hne
        simp only [hd, Bool.false_eq_true, ↓reduceIte]
        cases hp : env.parse (getline input).1 with
        | none => rfl
        | some m =>
          simp only
          rw [ih b (getline input).2 (dispatch env st m).st (by omega) (by omega)]

/-- One turn of the loop, in terms of `parseMessage` on the unread input. -/
theorem parseMessage_unfold (env : World H K) (st : JsonRpcProtocol H K) (input : List Char) :
    parseMessage env st input =
      if (getline input).1.isEmpty then { st := st, buffer := [], trace := [], caught := false }
      else
        match env.parse (getline input).1 with
        | none => { st := st, buffer := (getline input).1, trace := [], caught := false }
        | some jsonMessage =>
          if (dispatch env st jsonMessage).raised then
            { st := (dispatch env st jsonMessage).st, buffer := [],
              trace := (dispatch env st jsonMessage).trace, caught := true }
          else
            { parseMessage env (dispatch env st jsonMessage).st (getline input).2 with
              trace := (dispatch env st jsonMessage).trace ++
                (parseMessage env (dispatch env st jsonMessage).st (getline input).2).trace } := by
  unfold parseMessage
  rw [parseLoop.eq_2]
  by_cases hd : (getline input).1.isEmpty = true
  · simp [hd]
  · have hne : (getline input).1 ≠ [] := by
      intro e; apply hd; simp [e]
    have hlt := getline_rest_length input hne
    simp only [hd, Bool.false_eq_true, ↓reduceIte]
    cases hp : env.parse (getline input).1 with
    | none => rfl
    | some m =>
      simp only
      rw [parseLoop_fuel env input.length ((getline input).2.length + 1) (getline input).2
        (dispatch env st m).st (by omega) (by omega)]

theorem parseMessage_nil (env : World H K) (st : JsonRpcProtocol H K) :
    parseMessage env st [] = { st := st, buffer := [], trace := [], caught := false } := by
  rw [parseMessage_unfold]; simp [getline]

/-- A complete line that the reader accepts and whose dispatch raises nothing. -/
theorem parseMessage_line (env : World H K) (st : JsonRpcProtocol H K)
    (line rest : List Char) (m : Json) (hnl : '\n' ∉ line) (hne : line ≠ [])
    (hp : env.parse line = some m) (hr : (dispatch env st m).raised = false) :
    parseMessage env st (line ++ '\n' :: rest) =
      { parseMessage env (dispatch env st m).st rest with
        trace := (dispatch env st m).trace ++
          (parseMessage env (dispatch env st m).st rest).trace } := by
  rw [parseMessage_unfold, getline_line line rest hnl]
  have : line.isEmpty = false := by cases line <;> simp_all
  simp [this, hp, hr]

/-- A complete line that the reader accepts and whose dispatch raises. -/
theorem parseMessage_line_raised (env : World H K) (st : JsonRpcProtocol H K)
    (line rest : List Char) (m : Json) (hnl : '\n' ∉ line) (hne : line ≠ [])
    (hp : env.parse line = some m) (hr : (dispatch env st m).raised = true) :
    parseMessage env st (line ++ '\n' :: rest) =
      { st := (dispatch env st m).st, buffer := [], trace := (dispatch env st m).trace,
        caught := true } := by
  rw [parseMessage_unfold, getline_line line rest hnl]
  have : line.isEmpty = false := by cases line <;> simp_all
  simp [this, hp, hr]

/-- A complete line that the reader rejects. -/
theorem parseMessage_line_rejected (env : World H K) (st : JsonRpcProtocol H K)
    (line rest : List Char) (hnl : '\n' ∉ line) (hne : line ≠ [])
    (hp : env.parse line = none) :
    parseMessage env st (line ++ '\n' :: rest) =
      { st := st, buffer := line, trace := [], caught := false } := by
  rw [parseMessage_unfold, getline_line line rest hnl]
  have : line.isEmpty = false := by cases line <;> simp_all
  simp [this, hp]

/-- A last segment without a newline that the reader rejects. -/
theorem parseMessage_tail_rejected (env : World H K) (st : JsonRpcProtocol H K)
    (seg : List Char) (hnl : '\n' ∉ seg) (hp : env.parse seg = none) :
    parseMessage env st seg = { st := st, buffer := seg, trace := [], caught := false } := by
  rw [parseMessage_unfold, getline_last seg hnl]
  cases seg with
  | nil => simp
  | cons c cs => simp [hp]

theorem dispatch_response_pending (env : World H K) (st : JsonRpcProtocol H K)
    (ms : List (String × Json)) (i : Int) (k : K)
    (hmethod : Json.lookup "method" ms = none)
    (hid : Json.lookup "id" ms = some (Json.int i))
    (hkind : (Json.lookup "result" ms).isSome ∨ (Json.lookup "error" ms).isSome)
    (hpending : st.mCurrentRequests i = some k)
    (hreturns : env.callContinuation k ((Json.lookup "result" ms).getD Json.null)
      ((Json.lookup "error" ms).getD Json.null) = true) :
    dispatch env st (Json.obj ms) =
      { st := { st with
            mCurrentRequests := fun j => if j = i then none else st.mCurrentRequests j },
        trace := [Event.continuation k ((Json.lookup "result" ms).getD Json.null)
          ((Json.lookup "error" ms).getD Json.null)],
        raised := false } := by
  have hres : (if (Json.obj ms).hasMember "result" then (Json.obj ms).get "result" else Json.null)
      = (Json.lookup "result" ms).getD Json.null := by
    cases h : Json.lookup "result" ms <;> simp [Json.hasMember, Json.get, h]
  have herr : (if (Json.obj ms).hasMember "error" then (Json.obj ms).get "error" else Json.null)
      = (Json.lookup "error" ms).getD Json.null := by
    cases h : Json.lookup "error" ms <;> simp [Json.hasMember, Json.get, h]
  have hk : ((Json.obj ms).hasMember "error" || (Json.obj ms).hasMember "result") = true := by
    rcases hkind with h | h <;> simp [Json.hasMember, h]
  have hget : (Json.obj ms).get "id" = Json.int i := by simp [Json.get, hid]
  have hhas : (Json.obj ms).hasMember "id" = true := by simp [Json.hasMember, hid]
  simp only [dispatch, Json.isMember, hmethod, Option.isSome_none, hk, ↓reduceIte,
    dispatchResponse, hhas, hget, Json.isInt, Json.asInt, hpending, hres, herr, hreturns]

theorem dispatch_response_pending_raised (env : World H K) (st : JsonRpcProtocol H K)
    (ms : List (String × Json)) (i : Int) (k : K)
    (hmethod : Json.lookup "method" ms = none)
    (hid : Json.lookup "id" ms = some (Json.int i))
    (hkind : (Json.lookup "result" ms).isSome ∨ (Json.lookup "error" ms).isSome)
    (hpending : st.mCurrentRequests i = some k)
    (hraises : env.callContinuation k ((Json.lookup "result" ms).getD Json.null)
      ((Json.lookup "error" ms).getD Json.null) = false) :
    dispatch env st (Json.obj ms) =
      { st := st,
        trace := [Event.continuation k ((Json.lookup "result" ms).getD Json.null)
          ((Json.lookup "error" ms).getD Json.null)],
        raised := true } := by
  have hres : (if (Json.obj ms).hasMember "result" then (Json.obj ms).get "result" else Json.null)
      = (Json.lookup "result" ms).getD Json.null := by
    cases h : Json.lookup "result" ms <;> simp [Json.hasMember, Json.get, h]
  have herr : (if (Json.obj ms).hasMember "error" then (Json.obj ms).get "error" else Json.null)
      = (Json.lookup "error" ms).getD Json.null := by
    cases h : Json.lookup "error" ms <;> simp [Json.hasMember, Json.get, h]
  have hk : ((Json.obj ms).hasMember "error" || (Json.obj ms).hasMember "result") = true := by
    rcases hkind with h | h <;> simp [Json.hasMember, h]
  have hget : (Json.obj ms).get "id" = Json.int i := by simp [Json.get, hid]
  have hhas : (Json.obj ms).hasMember "id" = true := by simp [Json.hasMember, hid]
  simp only [dispatch, Json.isMember, hmethod, Option.isSome_none, hk, ↓reduceIte,
    dispatchResponse, hhas, hget, Json.isInt, Json.asInt, hpending, hres, herr, hraises,
    Bool.false_eq_true]

theorem sendRequest_st_continuation (env : World H K) (st : JsonRpcProtocol H K)
    (method : String) (paramsArray : Json) (sendOk : Bool) (k : K)
    (hp : paramsArray.isArray = true) (hm : method ≠ "") :
    (sendRequest env st method paramsArray sendOk (some k)).st =
      { st with
        mCurrentRequests := fun i => if i = st.mCurrentId then some k else st.mCurrentRequests i,
        mCurrentId := st.mCurrentId + 1 } := by
  cases sendOk <;> simp [sendRequest, hp, hm, reportError]

/-- The dispatch of an object raises nothing when no callback raises. -/
theorem dispatch_object_not_raised (env : World H K) (st : JsonRpcProtocol H K)
    (ms : List (String × Json))
    (hhandlers : ∀ h params, env.callHandler h params ≠ HandlerOutcome.raised)
    (hconts : ∀ k result error, env.callContinuation k result error = true) :
    (dispatch env st (Json.obj ms)).raised = false := by
  unfold dispatch
  simp only [Json.isMember]
  cases hm : (Json.lookup "method" ms).isSome with
  | false =>
    simp only
    split
    · unfold dispatchResponse
      split
      · split
        · split
          · simp [hconts]
          · rfl
        · rfl
      · rfl
    · rfl
  | true =>
    simp only
    have hpr : ∀ events, processRequest env st (Json.obj ms) ≠ (events, none) := by
      intro events
      unfold processRequest
      simp only [Json.isMember]
      split
      · simp
      · split
        · rename_i name _
          cases hcb : st.mCallbacks name with
          | none => simp
          | some h =>
            simp only
            cases hh : env.callHandler h
                (if ((Json.obj ms).hasMember "params" &&
                  ((Json.obj ms).get "params").isArray) = true
                then (Json.obj ms).get "params" else Json.arr []) with
            | raised => exact absurd hh (hhandlers _ _)
            | returned r e => simp
        · simp
    split
    · split <;> rfl
    · rename_i events heq
      exact absurd heq (hpr events)

/-- The dispatch of a request whose method has a handler calls that handler
once, with the "params" member when it is an array and an empty array otherwise. -/
theorem dispatch_request_bound (env : World H K) (st : JsonRpcProtocol H K)
    (ms : List (String × Json)) (a : String) (h : H)
    (hmethod : Json.lookup "method" ms = some (Json.str a))
    (hbound : st.mCallbacks a = some h) :
    handlerCalls (dispatch env st (Json.obj ms)).trace =
      [(h, if (Json.obj ms).hasMember "params" && ((Json.obj ms).get "params").isArray
            then (Json.obj ms).get "params" else Json.arr [])] := by
  have hget : (Json.obj ms).get "method" = Json.str a := by simp [Json.get, hmethod]
  have hhas : (Json.obj ms).hasMember "method" = true := by simp [Json.hasMember, hmethod]
  unfold dispatch
  simp only [Json.isMember, hmethod, Option.isSome_some]
  unfold processRequest
  simp only [Json.isMember, hhas, hget, hbound, Bool.not_true, Bool.false_eq_true, ↓reduceIte]
  cases env.callHandler h
      (if ((Json.obj ms).hasMember "params" && ((Json.obj ms).get "params").isArray) = true
      then (Json.obj ms).get "params" else Json.arr []) with
  | raised => simp [handlerCalls]
  | returned r e =>
    simp only
    split <;> simp [handlerCalls]

theorem parseLoop_buffer (env : World H K) :
    ∀ (fuel : Nat) (input : List Char) (st : JsonRpcProtocol H K),
      (parseLoop env fuel input st).buffer = [] ∨
        env.parse (parseLoop env fuel input st).buffer = none := by
  intro fuel
  induction fuel with
  | zero => intro input st; left; rfl
  | succ n ih =>
    intro input st
    rw [parseLoop.eq_2]
    by_cases hd : (getline input).1.isEmpty = true
    · left; simp [hd]
    · simp only [hd, Bool.false_eq_true, ↓reduceIte]
      cases hp : env.parse (getline input).1 with
      | none => right; exact hp
      | some m =>
        simp only
        by_cases hr : (dispatch env st m).raised = true
        · left; simp [hr]
        · simp only [hr, Bool.false_eq_true, ↓reduceIte]
          exact ih _ _

theorem joinLines_append (p : List (List Char)) (tail : List Char) (env : World H K)
    (st : JsonRpcProtocol H K)
    (hlines : ∀ l ∈ p, l ≠ [] ∧ '\n' ∉ l ∧ ∃ ms, env.parse l = some (Json.obj ms))
    (hhandlers : ∀ h params, env.callHandler h params ≠ HandlerOutcome.raised)
    (hconts : ∀ k result error, env.callContinuation k result error = true) :
    parseMessage env st (joinLines p ++ tail) =
      { parseMessage env (dispatchAll env st (p.filterMap env.parse)).1 tail with
        trace := (dispatchAll env st (p.filterMap env.parse)).2 ++
          (parseMessage env (dispatchAll env st (p.filterMap env.parse)).1 tail).trace } := by
  induction p generalizing st with
  | nil => simp [joinLines, dispatchAll]
  | cons l ls ih =>
    obtain ⟨hne, hnl, ms, hp⟩ := hlines l (by simp)
    have hr := dispatch_object_not_raised env st ms hhandlers hconts
    have ih2 := ih (dispatch env st (Json.obj ms)).st (fun x hx => hlines x (by simp [hx]))
    rw [joinLines, List.append_assoc, List.cons_append,
      parseMessage_line env st l (joinLines ls ++ tail) (Json.obj ms) hnl hne hp hr, ih2]
    simp [List.filterMap_cons, hp, dispatchAll]

theorem dispatch_mCurrentId (env : World H K) (st : JsonRpcProtocol H K) (m : Json) :
    (dispatch env st m).st.mCurrentId = st.mCurrentId := by
  unfold dispatch dispatchResponse
  dsimp only
  repeat' split
  all_goals rfl

theorem dispatch_mCallbacks (env : World H K) (st : JsonRpcProtocol H K) (m : Json) :
    (dispatch env st m).st.mCallbacks = st.mCallbacks := by
  unfold dispatch dispatchResponse
  dsimp only
  repeat' split
  all_goals rfl

theorem parseLoop_mCurrentId (env : World H K) :
    ∀ (fuel : Nat) (input : List Char) (st : JsonRpcProtocol H K),
      (parseLoop env fuel input st).st.mCurrentId = st.mCurrentId := by
  intro fuel
  induction fuel with
  | zero => intro input st; rfl
  | succ n ih =>
    intro input st
    rw [parseLoop.eq_2]
    split
    · rfl
    · split
      · rfl
      · dsimp only
        split
        · exact dispatch_mCurrentId env st _
        · rw [ih, dispatch_mCurrentId]

theorem parseLoop_mCallbacks (env : World H K) :
    ∀ (fuel : Nat) (input : List Char) (st : JsonRpcProtocol H K),
      (parseLoop env fuel input st).st.mCallbacks = st.mCallbacks := by
  intro fuel
  induction fuel with
  | zero => intro input st; rfl
  | succ n ih =>
    intro input st
    rw [parseLoop.eq_2]
    split
    · rfl
    · split
      · rfl
      · dsimp only
        split
        · exact dispatch_mCallbacks env st _
        · rw [ih, dispatch_mCallbacks]

theorem sendRequest_mCallbacks (env : World H K) (st : JsonRpcProtocol H K) (method : String)
    (paramsArray : Json) (sendOk : Bool) (resultCb : Option K) :
    (sendRequest env st method paramsArray sendOk resultCb).st.mCallbacks = st.mCallbacks := by
  unfold sendRequest
  split
  · cases resultCb <;> rfl
  · split
    · cases resultCb <;> rfl
    · cases resultCb <;> cases sendOk <;> rfl

theorem sendRequest_mCurrentId (env : World H K) (st : JsonRpcProtocol H K) (method : String)
    (paramsArray : Json) (sendOk : Bool) (resultCb : Option K) :
    (sendRequest env st method paramsArray sendOk resultCb).st.mCurrentId =
      st.mCurrentId +
        (if allocatesId (Call.sendRequest method paramsArray sendOk resultCb : Call H K)
          then 1 else 0) := by
  unfold sendRequest
  cases ha : paramsArray.isArray with
  | false => cases resultCb <;> simp [reportError, allocatesId, ha]
  | true =>
    by_cases hm : method = ""
    · cases resultCb <;> simp [reportError, allocatesId, hm]
    · cases resultCb <;> cases sendOk <;> simp [reportError, allocatesId, ha, hm]

theorem perform_mCurrentId (env : World H K) (st : JsonRpcProtocol H K) (c : Call H K) :
    (perform env st c).1.mCurrentId = st.mCurrentId + (if allocatesId c then 1 else 0) := by
  cases c with
  | setRpcCallback method cb =>
    simp only [perform, setRpcCallback, allocatesId]
    split <;> simp
  | sendRequest method paramsArray sendOk resultCb =>
    simp only [perform]
    exact sendRequest_mCurrentId env st method paramsArray sendOk resultCb
  | parseMessage msgBuffer =>
    simp only [perform, parseMessage, allocatesId]
    rw [parseLoop_mCurrentId]
    simp

theorem performAll_mCurrentId (env : World H K) (calls : List (Call H K)) :
    ∀ st : JsonRpcProtocol H K,
      (performAll env st calls).1.mCurrentId =
        st.mCurrentId + (calls.countP allocatesId : Nat) := by
  induction calls with
  | nil => intro st; simp [performAll]
  | cons c cs ih =>
    intro st
    simp only [performAll]
    rw [ih, perform_mCurrentId, List.countP_cons]
    split <;> (push_cast; ring)

theorem perform_keeps_binding (env : World H K) (st : JsonRpcProtocol H K) (c : Call H K)
    (m : String) (h : H) (hb : st.mCallbacks m = some h) :
    (perform env st c).1.mCallbacks m = some h := by
  cases c with
  | setRpcCallback method cb =>
    simp only [perform, setRpcCallback]
    split
    · rename_i hnone
      have hne : m ≠ method := by
        intro e; subst e; rw [hb] at hnone; exact Option.noConfusion hnone
      simp [hne, hb]
    · exact hb
  | sendRequest method paramsArray sendOk resultCb =>
    simp only [perform]
    rw [sendRequest_mCallbacks]
    exact hb
  | parseMessage msgBuffer =>
    simp only [perform, parseMessage]
    rw [parseLoop_mCallbacks]
    exact hb

theorem performAll_keeps_binding (env : World H K) (calls : List (Call H K)) (m : String) (h : H) :
    ∀ st : JsonRpcProtocol H K, st.mCallbacks m = some h →
      (performAll env st calls).1.mCallbacks m = some h := by
  induction calls with
  | nil => intro st hb; exact hb
  | cons c cs ih =>
    intro st hb
    simp only [performAll]
    exact ih _ (perform_keeps_binding env st c m h hb)

/-- One complete request line for a method that has a handler: that handler is
called exactly once and the buffer is left empty. -/
theorem parseMessage_request_line (env : World H K) (st : JsonRpcProtocol H K)
    (line : List Char) (ms : List (String × Json)) (a : String) (h : H)
    (hnl : '\n' ∉ line) (hne : line ≠ [])
    (hparse : env.parse line = some (Json.obj ms))
    (hmethod : Json.lookup "method" ms = some (Json.str a))
    (hbound : st.mCallbacks a = some h) :
    handlerCalls (parseMessage env st (line ++ ['\n'])).trace =
        [(h, if (Json.obj ms).hasMember "params" && ((Json.obj ms).get "params").isArray
              then (Json.obj ms).get "params" else Json.arr [])]
      ∧ (parseMessage env st (line ++ ['\n'])).buffer = [] := by
  have hcalls := dispatch_request_bound env st ms a h hmethod hbound
  by_cases hr : (dispatch env st (Json.obj ms)).raised = true
  · rw [parseMessage_line_raised env st line [] (Json.obj ms) hnl hne hparse hr]
    exact ⟨hcalls, rfl⟩
  · have hr2 : (dispatch env st (Json.obj ms)).raised = false := by
      simpa using hr
    rw [parseMessage_line env st line [] (Json.obj ms) hnl hne hparse hr2, parseMessage_nil]
    simp only [List.append_nil]
    exact ⟨hcalls, trivial⟩

theorem lookup_setMember_same (key : String) (val : Json) (ms : List (String × Json)) :
    Json.lookup key (Json.setMember key val ms) = some val := by
  induction ms with
  | nil => simp [Json.setMember, Json.lookup]
  | cons kv rest ih =>
    obtain ⟨k, v⟩ := kv
    by_cases hk : k = key
    · simp [Json.setMember, Json.lookup, hk]
    · simp [Json.setMember, Json.lookup, hk, ih]

theorem lookup_setMember_other (key other : String) (val : Json) (ms : List (String × Json))
    (hne : other ≠ key) :
    Json.lookup other (Json.setMember key val ms) = Json.lookup other ms := by
  induction ms with
  | nil =>
    have : ¬ key = other := fun e => hne e.symm
    simp [Json.setMember, Json.lookup, this]
  | cons kv rest ih =>
    obtain ⟨k, v⟩ := kv
    by_cases hk : k = key
    · have : ¬ key = other := fun e => hne e.symm
      simp [Json.setMember, Json.lookup, hk, this]
    · by_cases ho : k = other
      · subst ho
        simp [Json.setMember, Json.lookup, hne]
      · simp [Json.setMember, Json.lookup, hk, ho, ih]

theorem get_set_same (v : Json) (key : String) (val : Json) : (v.set key val).get key = val := by
  cases v <;> simp [Json.set, Json.get, Json.lookup, lookup_setMember_same]

theorem hasMember_set_same (v : Json) (key : String) (val : Json) :
    (v.set key val).hasMember key = true := by
  cases v <;> simp [Json.set, Json.hasMember, Json.lookup, lookup_setMember_same]

theorem get_set_other (v : Json) (key other : String) (val : Json) (hne : other ≠ key) :
    (v.set key val).get other = v.get other := by
  have hk : ¬ key = other := fun e => hne e.symm
  cases v <;> simp [Json.set, Json.get, Json.lookup, lookup_setMember_other _ _ _ _ hne, hk]

theorem hasMember_set_other (v : Json) (key other : String) (val : Json) (hne : other ≠ key) :
    (v.set key val).hasMember other = v.hasMember other := by
  have hk : ¬ key = other := fun e => hne e.symm
  cases v <;> simp [Json.set, Json.hasMember, Json.lookup, lookup_setMember_other _ _ _ _ hne, hk]

/-- A last segment without a newline that the reader accepts: it is dispatched
at once and nothing is kept. -/
theorem parseMessage_tail_accepted (env : World H K) (st : JsonRpcProtocol H K)
    (seg : List Char) (m : Json) (hnl : '\n' ∉ seg) (hne : seg ≠ [])
    (hp : env.parse seg = some m) :
    parseMessage env st seg =
      { st := (dispatch env st m).st, buffer := [], trace := (dispatch env st m).trace,
        caught := (dispatch env st m).raised } := by
  rw [parseMessage_unfold, getline_last seg hnl]
  have : seg.isEmpty = false := by cases seg <;> simp_all
  simp only [this, Bool.false_eq_true, ↓reduceIte, hp]
  cases hr : (dispatch env st m).raised with
  | true => simp
  | false => simp [parseMessage_nil]

/-- The dispatch of a request that has an "id" and names a method without a
handler: one response, with the id and the error text, is handed to the socket. -/
theorem dispatch_request_unbound (env : World H K) (st : JsonRpcProtocol H K)
    (ms : List (String × Json)) (name : String) (idv : Json)
    (hmethod : Json.lookup "method" ms = some (Json.str name))
    (hid : Json.lookup "id" ms = some idv)
    (hunbound : st.mCallbacks name = none) :
    dispatch env st (Json.obj ms) =
      { st := st,
        trace := [Event.socketSend
          (((Json.null.set "jsonrpc" (Json.str "2.0")).set "id" idv).set "error"
            (Json.str ("RPC callback for method \x27" ++ name ++ "\x27 not found")))],
        raised := false } := by
  have hget : (Json.obj ms).get "method" = Json.str name := by simp [Json.get, hmethod]
  have hhas : (Json.obj ms).hasMember "method" = true := by simp [Json.hasMember, hmethod]
  have hgid : (Json.obj ms).get "id" = idv := by simp [Json.get, hid]
  have hhid : (Json.obj ms).hasMember "id" = true := by simp [Json.hasMember, hid]
  unfold dispatch
  simp only [Json.isMember, hmethod, Option.isSome_some]
  unfold processRequest
  simp only [Json.isMember, hid, Option.isSome_some, hhas, hget, hgid, hunbound, hhid,
    Bool.not_true, Bool.false_eq_true, ↓reduceIte, finishResponse, Json.isNull,
    List.nil_append]

/-- The envelope `processRequest` starts from, with the id of the request when
it has one: it has neither a "result" nor an "error" member. -/
theorem response_start (hasId : Bool) (idv : Json) :
    (if hasId = true then (Json.null.set "jsonrpc" (Json.str "2.0")).set "id" idv
      else Json.null.set "jsonrpc" (Json.str "2.0")).hasMember "result" = false
    ∧ (if hasId = true then (Json.null.set "jsonrpc" (Json.str "2.0")).set "id" idv
      else Json.null.set "jsonrpc" (Json.str "2.0")).hasMember "error" = false
    ∧ (if hasId = true then (Json.null.set "jsonrpc" (Json.str "2.0")).set "id" idv
      else Json.null.set "jsonrpc" (Json.str "2.0")).get "jsonrpc" = Json.str "2.0"
    ∧ (if hasId = true then (Json.null.set "jsonrpc" (Json.str "2.0")).set "id" idv
      else Json.null.set "jsonrpc" (Json.str "2.0")).hasMember "id" = hasId
    ∧ (hasId = true →
        (if hasId = true then (Json.null.set "jsonrpc" (Json.str "2.0")).set "id" idv
          else Json.null.set "jsonrpc" (Json.str "2.0")).get "id" = idv) := by
  cases hasId <;> simp [Json.set, Json.setMember, Json.hasMember, Json.get, Json.lookup]

theorem finishResponse_keys (response result error : Json)
    (hr : response.hasMember "result" = false) (he : response.hasMember "error" = false) :
    (result.isNull = false →
        (finishResponse response result error).get "result" = result
        ∧ (finishResponse response result error).hasMember "result" = true
        ∧ (finishResponse response result error).hasMember "error" = false)
    ∧ (result.isNull = true →
        (finishResponse response result error).get "error" = error
        ∧ (finishResponse response result error).hasMember "error" = true
        ∧ (finishResponse response result error).hasMember "result" = false) := by
  have h1 : ("result" : String) ≠ "error" := by decide
  have h2 : ("error" : String) ≠ "result" := by decide
  constructor
  · intro hn
    simp only [finishResponse, hn, Bool.not_false, ↓reduceIte]
    exact ⟨get_set_same _ _ _, hasMember_set_same _ _ _,
      by rw [hasMember_set_other _ _ _ _ h2]; exact he⟩
  · intro hn
    simp only [finishResponse, hn, Bool.not_true, Bool.false_eq_true, ↓reduceIte]
    exact ⟨get_set_same _ _ _, hasMember_set_same _ _ _,
      by rw [hasMember_set_other _ _ _ _ h1]; exact hr⟩

theorem finishResponse_other (response result error : Json) (key : String)
    (h1 : key ≠ "result") (h2 : key ≠ "error") :
    (finishResponse response result error).get key = response.get key
    ∧ (finishResponse response result error).hasMember key = response.hasMember key := by
  unfold finishResponse
  split
  · exact ⟨get_set_other _ _ _ _ h1, hasMember_set_other _ _ _ _ h1⟩
  · exact ⟨get_set_other _ _ _ _ h2, hasMember_set_other _ _ _ _ h2⟩

theorem sends_append (xs ys : List (Event H K)) : sends (xs ++ ys) = sends xs ++ sends ys := by
  induction xs with
  | nil => rfl
  | cons e es ih => cases e <;> simp [sends, ih]

theorem processRequest_sends (env : World H K) (st : JsonRpcProtocol H K) (request : Json) :
    sends (processRequest env st request).1 = [] := by
  unfold processRequest
  dsimp only
  repeat' split
  all_goals rfl

theorem get_of_not_hasMember (v : Json) (key : String) (h : v.hasMember key = false) :
    v.get key = Json.null := by
  cases v <;> simp_all [Json.get, Json.hasMember]

theorem isMember_eq_hasMember (v : Json) (key : String) (b : Bool)
    (h : v.isMember key = some b) : b = v.hasMember key := by
  cases v <;> simp_all [Json.isMember, Json.hasMember]

/-- The envelope of the two validation errors of `processRequest`. -/
theorem errorEnvelope_keys (response : Json) (message : String)
    (he : response.hasMember "error" = false) :
    ((response.setNested "error" "code" (Json.int (-1))).setNested "error" "message"
        (Json.str message)).get "error"
      = Json.obj [("code", Json.int (-1)), ("message", Json.str message)]
    ∧ ((response.setNested "error" "code" (Json.int (-1))).setNested "error" "message"
        (Json.str message)).hasMember "error" = true
    ∧ (∀ key, key ≠ "error" →
        ((response.setNested "error" "code" (Json.int (-1))).setNested "error" "message"
            (Json.str message)).get key = response.get key
        ∧ ((response.setNested "error" "code" (Json.int (-1))).setNested "error" "message"
            (Json.str message)).hasMember key = response.hasMember key) := by
  have hnull := get_of_not_hasMember response "error" he
  simp only [Json.setNested, get_set_same, hnull]
  refine ⟨by simp [Json.set, Json.setMember], hasMember_set_same _ _ _, ?_⟩
  intro key hk
  exact ⟨by rw [get_set_other _ _ _ _ hk, get_set_other _ _ _ _ hk],
    by rw [hasMember_set_other _ _ _ _ hk, hasMember_set_other _ _ _ _ hk]⟩

/-- Every envelope that `processRequest` returns: exactly one of "result" and
"error", the protocol version, and the id of the request when it has one. -/
theorem processRequest_envelope (env : World H K) (st : JsonRpcProtocol H K) (request : Json)
    (events : List (Event H K)) (envelope : Json)
    (h : processRequest env st request = (events, some envelope)) :
    envelope.hasMember "result" = !envelope.hasMember "error"
    ∧ envelope.get "jsonrpc" = Json.str "2.0"
    ∧ envelope.hasMember "id" = request.hasMember "id"
    ∧ (request.hasMember "id" = true → envelope.get "id" = request.get "id") := by
  have k1 : ("result" : String) ≠ "error" := by decide
  have k2 : ("jsonrpc" : String) ≠ "error" := by decide
  have k3 : ("id" : String) ≠ "error" := by decide
  have k4 : ("jsonrpc" : String) ≠ "result" := by decide
  have k5 : ("id" : String) ≠ "result" := by decide
  unfold processRequest at h
  cases hi : request.isMember "id" with
  | none => rw [hi] at h; simp at h
  | some hasId =>
    have hb := isMember_eq_hasMember request "id" hasId hi
    obtain ⟨s1, s2, s3, s4, s5⟩ := response_start hasId (request.get "id")
    rw [hi] at h
    dsimp only at h
    have viaError : ∀ message : String,
        envelope = ((if hasId = true then
            (Json.null.set "jsonrpc" (Json.str "2.0")).set "id" (request.get "id")
          else Json.null.set "jsonrpc" (Json.str "2.0")).setNested "error" "code"
            (Json.int (-1))).setNested "error" "message" (Json.str message) →
        envelope.hasMember "result" = !envelope.hasMember "error"
        ∧ envelope.get "jsonrpc" = Json.str "2.0"
        ∧ envelope.hasMember "id" = request.hasMember "id"
        ∧ (request.hasMember "id" = true → envelope.get "id" = request.get "id") := by
      intro message he
      obtain ⟨e1, e2, e3⟩ := errorEnvelope_keys _ message s2
      rw [he]
      refine ⟨by rw [e2, (e3 "result" k1).2, s1]; rfl, by rw [(e3 "jsonrpc" k2).1, s3],
        by rw [(e3 "id" k3).2, s4, hb], ?_⟩
      intro hid
      rw [(e3 "id" k3).1]
      exact s5 (by rw [hb]; exact hid)
    have viaFinish : ∀ result error : Json,
        envelope = finishResponse (if hasId = true then
            (Json.null.set "jsonrpc" (Json.str "2.0")).set "id" (request.get "id")
          else Json.null.set "jsonrpc" (Json.str "2.0")) result error →
        envelope.hasMember "result" = !envelope.hasMember "error"
        ∧ envelope.get "jsonrpc" = Json.str "2.0"
        ∧ envelope.hasMember "id" = request.hasMember "id"
        ∧ (request.hasMember "id" = true → envelope.get "id" = request.get "id") := by
      intro result error he
      obtain ⟨f1, f2⟩ := finishResponse_keys _ result error s1 s2
      have g1 := finishResponse_other (if hasId = true then
            (Json.null.set "jsonrpc" (Json.str "2.0")).set "id" (request.get "id")
          else Json.null.set "jsonrpc" (Json.str "2.0")) result error "jsonrpc" k4 k2
      have g2 := finishResponse_other (if hasId = true then
            (Json.null.set "jsonrpc" (Json.str "2.0")).set "id" (request.get "id")
          else Json.null.set "jsonrpc" (Json.str "2.0")) result error "id" k5 k3
      rw [he]
      refine ⟨?_, by rw [g1.1, s3], by rw [g2.2, s4, hb], ?_⟩
      · cases hn : result.isNull with
        | false => rw [(f1 hn).2.1, (f1 hn).2.2]; rfl
        | true => rw [(f2 hn).2.1, (f2 hn).2.2]; rfl
      · intro hid
        rw [g2.1]
        exact s5 (by rw [hb]; exact hid)
    split at h
    · simp only [Prod.mk.injEq, Option.some.injEq] at h
      exact viaError _ h.2.symm
    · split at h
      · split at h
        · split at h
          · simp only [Prod.mk.injEq, Option.some.injEq] at h
            exact viaFinish _ _ h.2.symm
          · simp at h
        · simp only [Prod.mk.injEq, Option.some.injEq] at h
          exact viaFinish _ _ h.2.symm
      · simp only [Prod.mk.injEq, Option.some.injEq] at h
        exact viaError _ h.2.symm

/-- One complete line that the reader accepts, alone in the buffer: the pass is
the dispatch of its document, whether or not the dispatch raises. -/
theorem parseMessage_single_line (env : World H K) (st : JsonRpcProtocol H K)
    (line : List Char) (m : Json) (hnl : '\n' ∉ line) (hne : line ≠ [])
    (hp : env.parse line = some m) :
    parseMessage env st (line ++ ['\n']) =
      { st := (dispatch env st m).st, buffer := [], trace := (dispatch env st m).trace,
        caught := (dispatch env st m).raised } := by
  cases hr : (dispatch env st m).raised with
  | true => rw [parseMessage_line_raised env st line [] m hnl hne hp hr]
  | false => rw [parseMessage_line env st line [] m hnl hne hp hr, parseMessage_nil]; simp

theorem processRequest_returns (env : World H K) (st : JsonRpcProtocol H K)
    (ms : List (String × Json))
    (hhandlers : ∀ h params, env.callHandler h params ≠ HandlerOutcome.raised) :
    ∃ envelope, (processRequest env st (Json.obj ms)).2 = some envelope := by
  unfold processRequest
  simp only [Json.isMember]
  split
  · exact ⟨_, rfl⟩
  · split
    · rename_i name _
      cases hcb : st.mCallbacks name with
      | none => exact ⟨_, rfl⟩
      | some h =>
        simp only
        cases hh : env.callHandler h
            (if ((Json.obj ms).hasMember "params" &&
              ((Json.obj ms).get "params").isArray) = true
            then (Json.obj ms).get "params" else Json.arr []) with
        | raised => exact absurd hh (hhandlers _ _)
        | returned r e => exact ⟨_, rfl⟩
    · exact ⟨_, rfl⟩

/-- The sends of the dispatch of a request: the envelope of `processRequest`
when the request has an "id" and `processRequest` returns, nothing otherwise. -/
theorem dispatch_request_sends (env : World H K) (st : JsonRpcProtocol H K)
    (ms : List (String × Json)) (hmethod : (Json.lookup "method" ms).isSome = true) :
    sends (dispatch env st (Json.obj ms)).trace =
      match (processRequest env st (Json.obj ms)).2 with
      | some envelope => if (Json.lookup "id" ms).isSome then [envelope] else []
      | none => [] := by
  have hs := processRequest_sends env st (Json.obj ms)
  unfold dispatch
  simp only [Json.isMember, hmethod]
  cases hpr : processRequest env st (Json.obj ms) with
  | mk events response =>
    rw [hpr] at hs
    simp only at hs
    cases response with
    | none => simpa using hs
    | some envelope =>
      simp only [Json.hasMember]
      by_cases hid : (Json.lookup "id" ms).isSome = true
      · simp [hid, sends_append, hs, sends]
      · simp [hid, hs]

theorem dispatch_pending_subset (env : World H K) (st : JsonRpcProtocol H K) (m : Json)
    (i : Int) (k : K) (h : (dispatch env st m).st.mCurrentRequests i = some k) :
    st.mCurrentRequests i = some k := by
  unfold dispatch dispatchResponse at h
  dsimp only at h
  repeat' split at h
  all_goals first
    | exact h
    | (simp only at h; split at h <;> first | exact h | exact Option.noConfusion h)

theorem parseLoop_pending_subset (env : World H K) :
    ∀ (fuel : Nat) (input : List Char) (st : JsonRpcProtocol H K) (i : Int) (k : K),
      (parseLoop env fuel input st).st.mCurrentRequests i = some k →
        st.mCurrentRequests i = some k := by
  intro fuel
  induction fuel with
  | zero => intro input st i k h; exact h
  | succ n ih =>
    intro input st i k
    rw [parseLoop.eq_2]
    by_cases hd : (getline input).1.isEmpty = true
    · simp only [hd, ↓reduceIte]; exact fun h => h
    · simp only [hd, Bool.false_eq_true, ↓reduceIte]
      cases hp : env.parse (getline input).1 with
      | none => exact fun h => h
      | some m =>
        simp only
        by_cases hr : (dispatch env st m).raised = true
        · simp only [hr, ↓reduceIte]
          exact dispatch_pending_subset env st m i k
        · simp only [hr, Bool.false_eq_true, ↓reduceIte]
          intro h
          exact dispatch_pending_subset env st m i k (ih _ _ i k h)

theorem sendRequest_pending (env : World H K) (st : JsonRpcProtocol H K) (method : String)
    (paramsArray : Json) (sendOk : Bool) (resultCb : Option K) (i : Int) (k : K)
    (h : (sendRequest env st method paramsArray sendOk resultCb).st.mCurrentRequests i = some k) :
    st.mCurrentRequests i = some k ∨
      (i = st.mCurrentId ∧
        (sendRequest env st method paramsArray sendOk resultCb).st.mCurrentId
          = st.mCurrentId + 1) := by
  unfold sendRequest at h ⊢
  cases ha : paramsArray.isArray with
  | false =>
    rw [ha] at h
    cases resultCb <;> simp [reportError] at h <;> exact Or.inl h
  | true =>
    rw [ha] at h
    by_cases hm : method = ""
    · cases resultCb <;> simp [reportError, hm] at h <;> exact Or.inl h
    · cases resultCb with
      | none => cases sendOk <;> simp [reportError, hm] at h <;> exact Or.inl h
      | some k0 =>
        by_cases hi : i = st.mCurrentId
        · right
          refine ⟨hi, ?_⟩
          cases sendOk <;> simp [reportError, hm]
        · left
          cases sendOk <;> simp [reportError, hm, hi] at h <;> exact h

/-- The invariant of the pending table: the counter is not negative and every
key is at least 0 and below the counter. Each call keeps it. -/
theorem perform_keeps_keys_below (env : World H K) (st : JsonRpcProtocol H K) (c : Call H K)
    (hpos : 0 ≤ st.mCurrentId)
    (hkeys : ∀ i k, st.mCurrentRequests i = some k → 0 ≤ i ∧ i < st.mCurrentId) :
    0 ≤ (perform env st c).1.mCurrentId
    ∧ ∀ i k, (perform env st c).1.mCurrentRequests i = some k →
        0 ≤ i ∧ i < (perform env st c).1.mCurrentId := by
  have hid := perform_mCurrentId env st c
  have hge : st.mCurrentId ≤ (perform env st c).1.mCurrentId := by
    rw [hid]; split <;> omega
  refine ⟨by omega, ?_⟩
  intro i k h
  cases c with
  | setRpcCallback method cb =>
    have : (perform env st (Call.setRpcCallback method cb)).1.mCurrentRequests
        = st.mCurrentRequests := by
      simp only [perform, setRpcCallback]
      split <;> rfl
    rw [this] at h
    have := hkeys i k h
    omega
  | sendRequest method paramsArray sendOk resultCb =>
    simp only [perform] at h hge ⊢
    rcases sendRequest_pending env st method paramsArray sendOk resultCb i k h with
      h1 | ⟨h1, h2⟩
    · have := hkeys i k h1
      omega
    · omega
  | parseMessage msgBuffer =>
    simp only [perform, parseMessage] at h hge ⊢
    have := hkeys i k (parseLoop_pending_subset env _ _ _ i k h)
    omega

theorem performAll_keeps_keys_below (env : World H K) (calls : List (Call H K)) :
    ∀ st : JsonRpcProtocol H K, 0 ≤ st.mCurrentId →
      (∀ i k, st.mCurrentRequests i = some k → 0 ≤ i ∧ i < st.mCurrentId) →
      0 ≤ (performAll env st calls).1.mCurrentId
      ∧ ∀ i k, (performAll env st calls).1.mCurrentRequests i = some k →
          0 ≤ i ∧ i < (performAll env st calls).1.mCurrentId := by
  induction calls with
  | nil => intro st hpos hkeys; exact ⟨hpos, hkeys⟩
  | cons c cs ih =>
    intro st hpos hkeys
    obtain ⟨h1, h2⟩ := perform_keeps_keys_below env st c hpos hkeys
    exact ih _ h1 h2

theorem dispatchAll_append (env : World H K) (xs ys : List Json) :
    ∀ st : JsonRpcProtocol H K,
      dispatchAll env st (xs ++ ys) =
        ((dispatchAll env (dispatchAll env st xs).1 ys).1,
          (dispatchAll env st xs).2 ++ (dispatchAll env (dispatchAll env st xs).1 ys).2) := by
  induction xs with
  | nil => intro st; simp [dispatchAll]
  | cons x rest ih =>
    intro st
    have h := ih (dispatch env st x).st
    show dispatchAll env st (x :: (rest ++ ys)) = _
    rw [dispatchAll, h]
    simp only [dispatchAll, List.append_assoc]

theorem sendRequest_keeps_other_entries (env : World H K) (st : JsonRpcProtocol H K)
    (method : String) (paramsArray : Json) (sendOk : Bool) (resultCb : Option K) (j : Int)
    (hj : j ≠ st.mCurrentId) :
    (sendRequest env st method paramsArray sendOk resultCb).st.mCurrentRequests j
      = st.mCurrentRequests j := by
  unfold sendRequest
  cases ha : paramsArray.isArray with
  | false => cases resultCb <;> simp [reportError]
  | true =>
    by_cases hm : method = ""
    · cases resultCb <;> simp [reportError, hm]
    · cases resultCb <;> cases sendOk <;> simp [reportError, hm, hj]

theorem filterMap_parse_length (env : World H K) (p : List (List Char))
    (hp : ∀ x ∈ p, x ≠ [] ∧ '\n' ∉ x ∧ ∃ ms, env.parse x = some (Json.obj ms)) :
    (p.filterMap env.parse).length = p.length := by
  induction p with
  | nil => rfl
  | cons l ls ih =>
    obtain ⟨_, _, ms, hparse⟩ := hp l (by simp)
    simp [List.filterMap_cons, hparse, ih (fun x hx => hp x (by simp [hx]))]

/-- `processRequest` on an object returns an envelope unless the method is a
string bound to a handler whose call raises. -/
theorem processRequest_returns_unless_raised (env : World H K) (st : JsonRpcProtocol H K)
    (ms : List (String × Json))
    (hreturns : ∀ name h, Json.lookup "method" ms = some (Json.str name) →
      st.mCallbacks name = some h →
      env.callHandler h
          (if (Json.obj ms).hasMember "params" && ((Json.obj ms).get "params").isArray
            then (Json.obj ms).get "params" else Json.arr [])
        ≠ HandlerOutcome.raised) :
    ∃ envelope, (processRequest env st (Json.obj ms)).2 = some envelope := by
  unfold processRequest
  simp only [Json.isMember]
  split
  · exact ⟨_, rfl⟩
  · split
    · rename_i name hget
      have hmethod : Json.lookup "method" ms = some (Json.str name) := by
        cases hl : Json.lookup "method" ms with
        | none => simp [Json.get, hl] at hget
        | some v => simp [Json.get, hl] at hget; rw [hget]
      cases hcb : st.mCallbacks name with
      | none => exact ⟨_, rfl⟩
      | some h =>
        simp only
        cases hh : env.callHandler h
            (if ((Json.obj ms).hasMember "params" &&
              ((Json.obj ms).get "params").isArray) = true
            then (Json.obj ms).get "params" else Json.arr []) with
        | raised => exact absurd hh (hreturns name h hmethod hcb)
        | returned r e => exact ⟨_, rfl⟩
    · exact ⟨_, rfl⟩

/-- `processRequest` on a request for a handler whose call raises: the handler
is called and the exception leaves the function. -/
theorem processRequest_raised (env : World H K) (st : JsonRpcProtocol H K)
    (ms : List (String × Json)) (name : String) (h : H)
    (hmethod : Json.lookup "method" ms = some (Json.str name))
    (hbound : st.mCallbacks name = some h)
    (hraised : env.callHandler h
        (if (Json.obj ms).hasMember "params" && ((Json.obj ms).get "params").isArray
          then (Json.obj ms).get "params" else Json.arr [])
      = HandlerOutcome.raised) :
    processRequest env st (Json.obj ms) =
      ([Event.handler h
          (if (Json.obj ms).hasMember "params" && ((Json.obj ms).get "params").isArray
            then (Json.obj ms).get "params" else Json.arr [])], none) := by
  have hget : (Json.obj ms).get "method" = Json.str name := by simp [Json.get, hmethod]
  have hhas : (Json.obj ms).hasMember "method" = true := by simp [Json.hasMember, hmethod]
  unfold processRequest
  simp only [Json.isMember, hhas, hget, hbound, Bool.not_true, Bool.false_eq_true, ↓reduceIte]
  rw [hraised]

/-- The dispatch of a request for a handler whose call raises: the only effect
is the call of the handler, and the exception leaves the loop body. -/
theorem dispatch_request_raised (env : World H K) (st : JsonRpcProtocol H K)
    (ms : List (String × Json)) (name : String) (h : H)
    (hmethod : Json.lookup "method" ms = some (Json.str name))
    (hbound : st.mCallbacks name = some h)
    (hraised : env.callHandler h
        (if (Json.obj ms).hasMember "params" && ((Json.obj ms).get "params").isArray
          then (Json.obj ms).get "params" else Json.arr [])
      = HandlerOutcome.raised) :
    dispatch env st (Json.obj ms) =
      { st := st,
        trace := [Event.handler h
          (if (Json.obj ms).hasMember "params" && ((Json.obj ms).get "params").isArray
            then (Json.obj ms).get "params" else Json.arr [])],
        raised := true } := by
  have hpr := processRequest_raised env st ms name h hmethod hbound hraised
  unfold dispatch
  simp only [Json.isMember, hmethod, Option.isSome_some]
  rw [hpr]

end Framing

/-! The claims -/

section Claims

variable {H K : Type}

open JsonRpcProtocol

/-- C1, as the claim states it, fails: request 0 is pending with a continuation
that raises, and the buffer holds the response with id 0. The continuation is
called once, the catch block runs, and entry 0 is not removed. With two pending
requests whose responses are fed in the reverse order in one buffer, a
continuation of the second request that raises ends the pass, and the
continuation of the first request is not called. -/
theorem parseMessage_raising_continuation_keeps_the_entry :
    (parseMessage raisingWorld
        (sendRequest raisingWorld init "ping" (Json.arr []) true (some 99)).st
        ("\x7b\"id\":0,\"result\":1\x7d".toList ++ ['\n'])).trace
      = [Event.continuation 99 (Json.int 1) Json.null]
    ∧ (parseMessage raisingWorld
        (sendRequest raisingWorld init "ping" (Json.arr []) true (some 99)).st
        ("\x7b\"id\":0,\"result\":1\x7d".toList ++ ['\n'])).st.mCurrentRequests 0
      = some 99
    ∧ (parseMessage raisingWorld
        (sendRequest raisingWorld init "ping" (Json.arr []) true (some 99)).st
        ("\x7b\"id\":0,\"result\":1\x7d".toList ++ ['\n'])).st.mCurrentRequests 0
      ≠ none
    ∧ continuationCalls (parseMessage raisingWorld
        (sendRequest raisingWorld
          (sendRequest raisingWorld init "first" (Json.arr []) true (some 1)).st
          "second" (Json.arr []) true (some 99)).st
        ("\x7b\"id\":1,\"result\":2\x7d".toList ++
          '\n' :: ("\x7b\"id\":0,\"result\":1\x7d".toList ++ ['\n']))).trace
      = [(99, Json.int 2, Json.null)] := by
  refine ⟨rfl, rfl, ?_, rfl⟩
  intro h
  exact Option.noConfusion ((rfl : _ = some 99).symm.trans h)

/-- C1, amended. A buffer holding one newline-terminated line that parses to an
object with no "method" key, the integer "id" `i` and a "result" and/or "error"
key, in a state whose pending table maps `i` to the continuation `k`:
`parseMessage` calls `k` exactly once, with the "result" value if present else
null and the "error" value if present else null, and has no other effect; when
the call of `k` returns, entry `i` is removed, and when it raises, entry `i`
stays; every other pending entry is left as it was; the buffer is left empty.
Moreover, when two requests are sent one after the other and their responses are
fed in the reverse order, and the continuation of the second request returns,
first the continuation of the second request is called with the values of the
second response and then the continuation of the first request with the values
of the first response. -/
theorem parseMessage_response_reaches_its_continuation
    (env : World H K) (st : JsonRpcProtocol H K) (line : List Char)
    (ms : List (String × Json)) (i : Int) (k : K)
    (hnl : '\n' ∉ line) (hne : line ≠ [])
    (hparse : env.parse line = some (Json.obj ms))
    (hmethod : Json.lookup "method" ms = none)
    (hid : Json.lookup "id" ms = some (Json.int i))
    (hkind : (Json.lookup "result" ms).isSome ∨ (Json.lookup "error" ms).isSome)
    (hpending : st.mCurrentRequests i = some k) :
    ((parseMessage env st (line ++ ['\n'])).trace =
        [Event.continuation k ((Json.lookup "result" ms).getD Json.null)
          ((Json.lookup "error" ms).getD Json.null)]
      ∧ (env.callContinuation k ((Json.lookup "result" ms).getD Json.null)
            ((Json.lookup "error" ms).getD Json.null) = true →
          (parseMessage env st (line ++ ['\n'])).st.mCurrentRequests i = none)
      ∧ (env.callContinuation k ((Json.lookup "result" ms).getD Json.null)
            ((Json.lookup "error" ms).getD Json.null) = false →
          (parseMessage env st (line ++ ['\n'])).st.mCurrentRequests i = some k)
      ∧ (∀ j, j ≠ i →
          (parseMessage env st (line ++ ['\n'])).st.mCurrentRequests j = st.mCurrentRequests j)
      ∧ (parseMessage env st (line ++ ['\n'])).buffer = [])
    ∧ (∀ (st0 : JsonRpcProtocol H K) (method1 method2 : String) (params1 params2 : Json)
        (sendOk1 sendOk2 : Bool) (k1 k2 : K) (line1 line2 : List Char)
        (ms1 ms2 : List (String × Json)),
        params1.isArray = true → method1 ≠ "" → params2.isArray = true → method2 ≠ "" →
        '\n' ∉ line1 → line1 ≠ [] → env.parse line1 = some (Json.obj ms1) →
        Json.lookup "method" ms1 = none →
        Json.lookup "id" ms1 = some (Json.int st0.mCurrentId) →
        ((Json.lookup "result" ms1).isSome ∨ (Json.lookup "error" ms1).isSome) →
        '\n' ∉ line2 → line2 ≠ [] → env.parse line2 = some (Json.obj ms2) →
        Json.lookup "method" ms2 = none →
        Json.lookup "id" ms2 = some (Json.int (st0.mCurrentId + 1)) →
        ((Json.lookup "result" ms2).isSome ∨ (Json.lookup "error" ms2).isSome) →
        env.callContinuation k2 ((Json.lookup "result" ms2).getD Json.null)
          ((Json.lookup "error" ms2).getD Json.null) = true →
        (parseMessage env
            (sendRequest env (sendRequest env st0 method1 params1 sendOk1 (some k1)).st
              method2 params2 sendOk2 (some k2)).st
            (line2 ++ '\n' :: (line1 ++ ['\n']))).trace =
          [Event.continuation k2 ((Json.lookup "result" ms2).getD Json.null)
              ((Json.lookup "error" ms2).getD Json.null),
            Event.continuation k1 ((Json.lookup "result" ms1).getD Json.null)
              ((Json.lookup "error" ms1).getD Json.null)]) := by
  have single : ∀ (st : JsonRpcProtocol H K) (line : List Char) (ms : List (String × Json))
      (i : Int) (k : K), '\n' ∉ line → line ≠ [] → env.parse line = some (Json.obj ms) →
      Json.lookup "method" ms = none → Json.lookup "id" ms = some (Json.int i) →
      ((Json.lookup "result" ms).isSome ∨ (Json.lookup "error" ms).isSome) →
      st.mCurrentRequests i = some k →
      (parseMessage env st (line ++ ['\n'])).trace =
        [Event.continuation k ((Json.lookup "result" ms).getD Json.null)
          ((Json.lookup "error" ms).getD Json.null)]
      ∧ (env.callContinuation k ((Json.lookup "result" ms).getD Json.null)
            ((Json.lookup "error" ms).getD Json.null) = true →
          (parseMessage env st (line ++ ['\n'])).st.mCurrentRequests i = none)
      ∧ (env.callContinuation k ((Json.lookup "result" ms).getD Json.null)
            ((Json.lookup "error" ms).getD Json.null) = false →
          (parseMessage env st (line ++ ['\n'])).st.mCurrentRequests i = some k)
      ∧ (∀ j, j ≠ i →
          (parseMessage env st (line ++ ['\n'])).st.mCurrentRequests j = st.mCurrentRequests j)
      ∧ (parseMessage env st (line ++ ['\n'])).buffer = [] := by
    intro st line ms i k hnl hne hparse hmethod hid hkind hpending
    cases hc : env.callContinuation k ((Json.lookup "result" ms).getD Json.null)
        ((Json.lookup "error" ms).getD Json.null) with
    | true =>
      have hd := dispatch_response_pending env st ms i k hmethod hid hkind hpending hc
      have hr : (dispatch env st (Json.obj ms)).raised = false := by rw [hd]
      rw [parseMessage_line env st line [] (Json.obj ms) hnl hne hparse hr, parseMessage_nil, hd]
      refine ⟨by simp, by simp, fun h => Bool.noConfusion h, ?_, rfl⟩
      intro j hj
      simp [hj]
    | false =>
      have hd := dispatch_response_pending_raised env st ms i k hmethod hid hkind hpending hc
      have hr : (dispatch env st (Json.obj ms)).raised = true := by rw [hd]
      rw [parseMessage_line_raised env st line [] (Json.obj ms) hnl hne hparse hr, hd]
      exact ⟨rfl, fun h => Bool.noConfusion h, fun _ => hpending, fun _ _ => rfl, rfl⟩
  refine ⟨single st line ms i k hnl hne hparse hmethod hid hkind hpending, ?_⟩
  intro st0 method1 method2 params1 params2 sendOk1 sendOk2 k1 k2 line1 line2 ms1 ms2
    hp1 hm1 hp2 hm2 hnl1 hne1 hparse1 hmeth1 hid1 hkind1 hnl2 hne2 hparse2 hmeth2 hid2 hkind2
    hret2
  rw [sendRequest_st_continuation env _ method2 params2 sendOk2 k2 hp2 hm2,
    sendRequest_st_continuation env st0 method1 params1 sendOk1 k1 hp1 hm1]
  have hd2 := dispatch_response_pending env
    { mCallbacks := st0.mCallbacks,
      mCurrentRequests := fun i =>
        if i = st0.mCurrentId + 1 then some k2
        else if i = st0.mCurrentId then some k1 else st0.mCurrentRequests i,
      mCurrentId := st0.mCurrentId + 1 + 1 }
    ms2 (st0.mCurrentId + 1) k2 hmeth2 hid2 hkind2 (by simp) hret2
  have hr2 := congrArg CallResult.raised hd2
  simp only at hr2
  rw [parseMessage_line env _ line2 _ (Json.obj ms2) hnl2 hne2 hparse2 hr2, hd2]
  have h1 := (single
    { mCallbacks := st0.mCallbacks,
      mCurrentRequests := fun j =>
        if j = st0.mCurrentId + 1 then none
        else if j = st0.mCurrentId + 1 then some k2
        else if j = st0.mCurrentId then some k1 else st0.mCurrentRequests j,
      mCurrentId := st0.mCurrentId + 1 + 1 }
    line1 ms1 st0.mCurrentId k1 hnl1 hne1 hparse1 hmeth1 hid1 hkind1 (by simp)).1
  simp only [h1, List.singleton_append]

/-- Witness for C1 as amended: a fresh engine sends "ping" with continuation 7
and reads the response with id 0; the same with the continuation 99, which
raises; and two requests with continuations 1 and 2 whose responses arrive in
the reverse order. -/
theorem parseMessage_response_reaches_its_continuation_witness :
    (parseMessage sampleWorld
        (sendRequest sampleWorld init "ping" (Json.arr []) true (some 7)).st
        ("\x7b\"id\":0,\"result\":\"pong\"\x7d".toList ++ ['\n'])).trace
      = [Event.continuation 7 (Json.str "pong") Json.null]
    ∧ (parseMessage sampleWorld
        (sendRequest sampleWorld init "ping" (Json.arr []) true (some 7)).st
        ("\x7b\"id\":0,\"result\":\"pong\"\x7d".toList ++ ['\n'])).st.mCurrentRequests 0
      = none
    ∧ (parseMessage raisingWorld
        (sendRequest raisingWorld init "ping" (Json.arr []) true (some 99)).st
        ("\x7b\"id\":0,\"result\":\"pong\"\x7d".toList ++ ['\n'])).st.mCurrentRequests 0
      = some 99
    ∧ (parseMessage sampleWorld
        (sendRequest sampleWorld
          (sendRequest sampleWorld init "first" (Json.arr []) true (some 1)).st
          "second" (Json.arr []) true (some 2)).st
        ("\x7b\"id\":1,\"result\":\"two\"\x7d".toList ++
          '\n' :: ("\x7b\"id\":0,\"error\":\"one\"\x7d".toList ++ ['\n']))).trace
      = [Event.continuation 2 (Json.str "two") Json.null,
          Event.continuation 1 Json.null (Json.str "one")] :=
  ⟨(parseMessage_response_reaches_its_continuation sampleWorld
      (sendRequest sampleWorld init "ping" (Json.arr []) true (some 7)).st
      "\x7b\"id\":0,\"result\":\"pong\"\x7d".toList
      [("id", Json.int 0), ("result", Json.str "pong")] 0 7
      (by decide) (by decide) rfl rfl rfl (Or.inl rfl) rfl).1.1,
   (parseMessage_response_reaches_its_continuation sampleWorld
      (sendRequest sampleWorld init "ping" (Json.arr []) true (some 7)).st
      "\x7b\"id\":0,\"result\":\"pong\"\x7d".toList
      [("id", Json.int 0), ("result", Json.str "pong")] 0 7
      (by decide) (by decide) rfl rfl rfl (Or.inl rfl) rfl).1.2.1 rfl,
   (parseMessage_response_reaches_its_continuation raisingWorld
      (sendRequest raisingWorld init "ping" (Json.arr []) true (some 99)).st
      "\x7b\"id\":0,\"result\":\"pong\"\x7d".toList
      [("id", Json.int 0), ("result", Json.str "pong")] 0 99
      (by decide) (by decide) rfl rfl rfl (Or.inl rfl) rfl).1.2.2.1 rfl,
   (parseMessage_response_reaches_its_continuation sampleWorld
      (sendRequest sampleWorld init "ping" (Json.arr []) true (some 7)).st
      "\x7b\"id\":0,\"result\":\"pong\"\x7d".toList
      [("id", Json.int 0), ("result", Json.str "pong")] 0 7
      (by decide) (by decide) rfl rfl rfl (Or.inl rfl) rfl).2
      init "first" "second" (Json.arr []) (Json.arr []) true true 1 2
      "\x7b\"id\":0,\"error\":\"one\"\x7d".toList
      "\x7b\"id\":1,\"result\":\"two\"\x7d".toList
      [("id", Json.int 0), ("error", Json.str "one")]
      [("id", Json.int 1), ("result", Json.str "two")]
      rfl (by decide) rfl (by decide) (by decide) (by decide) rfl rfl rfl (Or.inr rfl)
      (by decide) (by decide) rfl rfl rfl (Or.inl rfl) rfl⟩

/-- C2, as the claim states it, fails. Each buffer below is a concatenation of
non-empty lines that the reader accepts, each followed by a newline. In the
first the line before the request for "echo" is a request whose handler raises,
in the second it is the document 5, which is not an object, in the third it is a
response whose continuation raises: the pass ends in the catch block at that
line and the request for "echo", which the dispatch of all lines in order
would hand to its handler, is not dispatched. -/
theorem parseMessage_exception_skips_the_later_lines :
    handlerCalls (parseMessage raisingWorld
        ((init.setRpcCallback "raise" "raise").setRpcCallback "echo" "echo")
        (joinLines ["\x7b\"method\":\"raise\"\x7d".toList,
          "\x7b\"method\":\"echo\"\x7d".toList])).trace
      = [("raise", Json.arr [])]
    ∧ handlerCalls (dispatchAll raisingWorld
        ((init.setRpcCallback "raise" "raise").setRpcCallback "echo" "echo")
        (["\x7b\"method\":\"raise\"\x7d".toList,
          "\x7b\"method\":\"echo\"\x7d".toList].filterMap raisingWorld.parse)).2
      = [("raise", Json.arr []), ("echo", Json.arr [])]
    ∧ sampleWorld.parse "5".toList = some (Json.int 5)
    ∧ (parseMessage sampleWorld (init.setRpcCallback "echo" "echo")
        (joinLines ["5".toList, "\x7b\"method\":\"echo\"\x7d".toList])).trace = []
    ∧ (parseMessage sampleWorld (init.setRpcCallback "echo" "echo")
        (joinLines ["5".toList, "\x7b\"method\":\"echo\"\x7d".toList])).caught = true
    ∧ handlerCalls (dispatchAll sampleWorld (init.setRpcCallback "echo" "echo")
        (["5".toList, "\x7b\"method\":\"echo\"\x7d".toList].filterMap sampleWorld.parse)).2
      = [("echo", Json.arr [])]
    ∧ handlerCalls (parseMessage raisingWorld
        (sendRequest raisingWorld (init.setRpcCallback "echo" "echo")
          "ping" (Json.arr []) true (some 99)).st
        (joinLines ["\x7b\"id\":0,\"result\":1\x7d".toList,
          "\x7b\"method\":\"echo\"\x7d".toList])).trace = [] :=
  ⟨rfl, rfl, rfl, rfl, rfl, rfl, rfl⟩

/-- C2, amended. A buffer that is the concatenation of `n >= 0` non-empty
lines, each accepted by the reader as a JSON object and each followed by a
newline, in a world whose handlers and continuations return normally (none
raises): `parseMessage` dispatches the documents of all `n` lines, in their
order in the buffer and each in the state the one before left (whatever a
handler reported and whether or not a handler was found), and leaves the buffer
empty. -/
theorem parseMessage_dispatches_every_line
    (env : World H K) (st : JsonRpcProtocol H K) (lines : List (List Char))
    (hlines : ∀ l ∈ lines, l ≠ [] ∧ '\n' ∉ l ∧ ∃ ms, env.parse l = some (Json.obj ms))
    (hhandlers : ∀ h params, env.callHandler h params ≠ HandlerOutcome.raised)
    (hconts : ∀ k result error, env.callContinuation k result error = true) :
    parseMessage env st (joinLines lines) =
        { st := (dispatchAll env st (lines.filterMap env.parse)).1,
          buffer := [],
          trace := (dispatchAll env st (lines.filterMap env.parse)).2,
          caught := false }
      ∧ (lines.filterMap env.parse).length = lines.length := by
  induction lines generalizing st with
  | nil => exact ⟨by simp [joinLines, parseMessage_nil, dispatchAll], rfl⟩
  | cons l ls ih =>
    obtain ⟨hne, hnl, ms, hp⟩ := hlines l (by simp)
    have hr := dispatch_object_not_raised env st ms hhandlers hconts
    have ih2 := ih (dispatch env st (Json.obj ms)).st (fun x hx => hlines x (by simp [hx]))
    refine ⟨?_, ?_⟩
    · rw [joinLines, parseMessage_line env st l (joinLines ls) (Json.obj ms) hnl hne hp hr,
        ih2.1]
      simp [List.filterMap_cons, hp, dispatchAll]
    · simp [List.filterMap_cons, hp, ih2.2]

/-- Witness for C2 as amended: three request lines, the first for a method without a handler,
the second for a handler that reports an error, the third for a handler that
returns a result; all three are answered, in order. -/
theorem parseMessage_dispatches_every_line_witness :
    (parseMessage sampleWorld
        ((init.setRpcCallback "fail" "fail").setRpcCallback "echo" "echo")
        (joinLines ["\x7b\"method\":\"nope\",\"id\":7\x7d".toList,
          "\x7b\"method\":\"fail\",\"id\":8\x7d".toList,
          "\x7b\"method\":\"echo\",\"params\":[1],\"id\":9\x7d".toList])).buffer = []
    ∧ handlerCalls (parseMessage sampleWorld
        ((init.setRpcCallback "fail" "fail").setRpcCallback "echo" "echo")
        (joinLines ["\x7b\"method\":\"nope\",\"id\":7\x7d".toList,
          "\x7b\"method\":\"fail\",\"id\":8\x7d".toList,
          "\x7b\"method\":\"echo\",\"params\":[1],\"id\":9\x7d".toList])).trace
      = [("fail", Json.arr []), ("echo", Json.arr [Json.int 1])]
    ∧ (sends (parseMessage sampleWorld
        ((init.setRpcCallback "fail" "fail").setRpcCallback "echo" "echo")
        (joinLines ["\x7b\"method\":\"nope\",\"id\":7\x7d".toList,
          "\x7b\"method\":\"fail\",\"id\":8\x7d".toList,
          "\x7b\"method\":\"echo\",\"params\":[1],\"id\":9\x7d".toList])).trace).map
        (fun envelope => envelope.get "id")
      = [Json.int 7, Json.int 8, Json.int 9] := by
  have key := (parseMessage_dispatches_every_line sampleWorld
    ((init.setRpcCallback "fail" "fail").setRpcCallback "echo" "echo")
    ["\x7b\"method\":\"nope\",\"id\":7\x7d".toList,
      "\x7b\"method\":\"fail\",\"id\":8\x7d".toList,
      "\x7b\"method\":\"echo\",\"params\":[1],\"id\":9\x7d".toList]
    (by
      intro l hl
      simp only [List.mem_cons, List.mem_singleton, List.not_mem_nil, or_false] at hl
      rcases hl with rfl | rfl | rfl
      · exact ⟨by decide, by decide, _, rfl⟩
      · exact ⟨by decide, by decide, _, rfl⟩
      · exact ⟨by decide, by decide, _, rfl⟩)
    (by intro h params; simp only [sampleWorld]; split <;> simp)
    (by intro k result error; rfl)).1
  rw [key]
  exact ⟨rfl, rfl, rfl⟩

/-- C3. A buffer holding a newline-free text `s` that the reader rejects:
`parseMessage` has no effect (no handler is called) and leaves the buffer equal
to `s`. When the caller then appends `t`, where `s ++ t` is one line followed by
a newline and the line parses to a request for a method `a` that has a handler,
the second `parseMessage` calls that handler exactly once and leaves the buffer
empty. -/
theorem parseMessage_keeps_an_incomplete_document
    (env : World H K) (st : JsonRpcProtocol H K) (s t line : List Char)
    (ms : List (String × Json)) (a : String) (h : H)
    (hs : '\n' ∉ s) (hrejected : env.parse s = none)
    (hst : s ++ t = line ++ ['\n']) (hline : '\n' ∉ line)
    (hparse : env.parse line = some (Json.obj ms))
    (hmethod : Json.lookup "method" ms = some (Json.str a))
    (hbound : st.mCallbacks a = some h) :
    (parseMessage env st s).trace = []
    ∧ (parseMessage env st s).buffer = s
    ∧ (parseMessage env st s).st = st
    ∧ handlerCalls (parseMessage env (parseMessage env st s).st
          ((parseMessage env st s).buffer ++ t)).trace =
        [(h, if (Json.obj ms).hasMember "params" && ((Json.obj ms).get "params").isArray
              then (Json.obj ms).get "params" else Json.arr [])]
    ∧ (parseMessage env (parseMessage env st s).st
          ((parseMessage env st s).buffer ++ t)).buffer = [] := by
  have hfirst := parseMessage_tail_rejected env st s hs hrejected
  have hne : line ≠ [] := by
    intro e
    subst e
    cases s with
    | nil => rw [hrejected] at hparse; exact Option.noConfusion hparse
    | cons c cs =>
      simp only [List.cons_append, List.nil_append, List.cons.injEq] at hst
      exact hs (by simp [hst.1])
  rw [hfirst]
  simp only [hst]
  have hcalls := dispatch_request_bound env st ms a h hmethod hbound
  refine ⟨trivial, trivial, trivial, ?_⟩
  by_cases hr : (dispatch env st (Json.obj ms)).raised = true
  · rw [parseMessage_line_raised env st line [] (Json.obj ms) hline hne hparse hr]
    exact ⟨hcalls, rfl⟩
  · have hr2 : (dispatch env st (Json.obj ms)).raised = false := by
      simpa using hr
    rw [parseMessage_line env st line [] (Json.obj ms) hline hne hparse hr2, parseMessage_nil]
    simp only [List.append_nil]
    exact ⟨hcalls, trivial⟩

/-- Witness for C3: the text of a request for "a" without its closing brace, then
the closing brace and the newline. -/
theorem parseMessage_keeps_an_incomplete_document_witness :
    (parseMessage sampleWorld (init.setRpcCallback "a" "a")
        "\x7b\"method\":\"a\",\"params\":[]".toList).trace = []
    ∧ (parseMessage sampleWorld (init.setRpcCallback "a" "a")
        "\x7b\"method\":\"a\",\"params\":[]".toList).buffer
      = "\x7b\"method\":\"a\",\"params\":[]".toList
    ∧ handlerCalls (parseMessage sampleWorld (init.setRpcCallback "a" "a")
        ("\x7b\"method\":\"a\",\"params\":[]".toList ++ "\x7d\n".toList)).trace
      = [("a", Json.arr [])]
    ∧ (parseMessage sampleWorld (init.setRpcCallback "a" "a")
        ("\x7b\"method\":\"a\",\"params\":[]".toList ++ "\x7d\n".toList)).buffer = [] := by
  have key := parseMessage_keeps_an_incomplete_document sampleWorld
    (init.setRpcCallback "a" "a")
    "\x7b\"method\":\"a\",\"params\":[]".toList "\x7d\n".toList
    "\x7b\"method\":\"a\",\"params\":[]\x7d".toList
    [("method", Json.str "a"), ("params", Json.arr [])] "a" "a"
    (by decide) rfl (by decide) (by decide) rfl rfl rfl
  exact ⟨key.1, key.2.1, key.2.2.2.1, key.2.2.2.2⟩

/-- C4, as the claim states it, fails: the buffer holds a line the reader
rejects, a newline and then a complete request line. After the pass the buffer
holds the rejected line only; it is neither that line followed by the rest nor
that line followed by the newline and the rest. -/
theorem parseMessage_drops_what_follows_a_rejected_line :
    sampleWorld.parse "\x7b\"method\":\"a\"".toList = none
    ∧ (parseMessage sampleWorld init
        ("\x7b\"method\":\"a\"".toList ++
          '\n' :: "\x7b\"method\":\"b\"\x7d\n".toList)).buffer
      = "\x7b\"method\":\"a\"".toList
    ∧ (parseMessage sampleWorld init
        ("\x7b\"method\":\"a\"".toList ++
          '\n' :: "\x7b\"method\":\"b\"\x7d\n".toList)).buffer
      ≠ "\x7b\"method\":\"a\"".toList ++ "\x7b\"method\":\"b\"\x7d\n".toList
    ∧ (parseMessage sampleWorld init
        ("\x7b\"method\":\"a\"".toList ++
          '\n' :: "\x7b\"method\":\"b\"\x7d\n".toList)).buffer
      ≠ "\x7b\"method\":\"a\"".toList ++
          '\n' :: "\x7b\"method\":\"b\"\x7d\n".toList := by
  refine ⟨rfl, rfl, ?_, ?_⟩ <;> decide

/-- C4, amended. For a buffer `p ++ l ++ newline ++ rest`, where `p` is a
sequence of complete lines the reader accepts (as JSON objects, dispatched
without an exception) and `l` is a non-empty line the reader rejects, the buffer
after the pass holds `l` alone: the line is re-inserted without its newline, and
`rest` is not re-inserted. -/
theorem parseMessage_stores_only_the_rejected_line
    (env : World H K) (st : JsonRpcProtocol H K) (p : List (List Char)) (l rest : List Char)
    (hp : ∀ x ∈ p, x ≠ [] ∧ '\n' ∉ x ∧ ∃ ms, env.parse x = some (Json.obj ms))
    (hhandlers : ∀ h params, env.callHandler h params ≠ HandlerOutcome.raised)
    (hconts : ∀ k result error, env.callContinuation k result error = true)
    (hne : l ≠ []) (hnl : '\n' ∉ l) (hrejected : env.parse l = none) :
    (parseMessage env st (joinLines p ++ (l ++ '\n' :: rest))).buffer = l := by
  rw [joinLines_append p (l ++ '\n' :: rest) env st hp hhandlers hconts,
    parseMessage_line_rejected env _ l rest hnl hne hrejected]

/-- Witness for C4 as amended: one complete request line, then a rejected line, a
newline and a further complete line. -/
theorem parseMessage_stores_only_the_rejected_line_witness :
    (parseMessage sampleWorld (init.setRpcCallback "b" "b")
      (joinLines ["\x7b\"method\":\"b\"\x7d".toList] ++
        ("\x7b\"method\":\"a\"".toList ++
          '\n' :: "\x7b\"method\":\"b\"\x7d\n".toList))).buffer
      = "\x7b\"method\":\"a\"".toList :=
  parseMessage_stores_only_the_rejected_line sampleWorld (init.setRpcCallback "b" "b")
    ["\x7b\"method\":\"b\"\x7d".toList] "\x7b\"method\":\"a\"".toList
    "\x7b\"method\":\"b\"\x7d\n".toList
    (by
      intro x hx
      simp only [List.mem_singleton] at hx
      subst hx
      exact ⟨by decide, by decide, _, rfl⟩)
    (by intro h params; simp only [sampleWorld]; split <;> simp)
    (by intro k result error; rfl)
    (by decide) (by decide) rfl

/-- C5. After every `parseMessage` call, for every reader, state and input
buffer, the buffer is empty or is a text the reader rejects; it is never a
non-empty text the reader accepts. -/
theorem parseMessage_leaves_only_an_unparseable_tail
    (env : World H K) (st : JsonRpcProtocol H K) (msgBuffer : List Char) :
    (parseMessage env st msgBuffer).buffer = [] ∨
      env.parse (parseMessage env st msgBuffer).buffer = none :=
  parseLoop_buffer env (msgBuffer.length + 1) msgBuffer st

/-- C6. A `sendRequest` call whose `paramsArray` is not an array or whose
method is empty hands nothing to `sendJson` or `socket->send`; a supplied
continuation is called exactly once, inside the call, with a null result and a
non-null error, and that is the only effect; without a continuation the call
has no effect. The engine state is unchanged. -/
theorem sendRequest_invalid_never_sends
    (env : World H K) (st : JsonRpcProtocol H K) (method : String) (paramsArray : Json)
    (sendOk : Bool) (resultCb : Option K)
    (hinvalid : paramsArray.isArray = false ∨ method = "") :
    sends (sendRequest env st method paramsArray sendOk resultCb).trace = []
    ∧ (∀ k, resultCb = some k →
        ∃ error, error.isNull = false ∧
          (sendRequest env st method paramsArray sendOk resultCb).trace =
            [Event.continuation k Json.null error])
    ∧ (resultCb = none → (sendRequest env st method paramsArray sendOk resultCb).trace = [])
    ∧ (sendRequest env st method paramsArray sendOk resultCb).st = st := by
  cases ha : paramsArray.isArray with
  | false =>
    cases resultCb with
    | none => simp [sendRequest, ha, reportError, sends]
    | some k =>
      refine ⟨by simp [sendRequest, ha, reportError, sends], ?_, by simp,
        by simp [sendRequest, ha, reportError]⟩
      intro k2 hk
      cases hk
      exact ⟨Json.str "paramsArray MUST be an array", rfl,
        by simp [sendRequest, ha, reportError]⟩
  | true =>
    have hm : method = "" := by
      rcases hinvalid with h | h
      · rw [ha] at h; exact Bool.noConfusion h
      · exact h
    cases resultCb with
    | none => simp [sendRequest, ha, hm, reportError, sends]
    | some k =>
      refine ⟨by simp [sendRequest, ha, hm, reportError, sends], ?_, by simp,
        by simp [sendRequest, ha, hm, reportError]⟩
      intro k2 hk
      cases hk
      exact ⟨Json.str "method MUST not be empty", rfl,
        by simp [sendRequest, ha, hm, reportError]⟩

/-- Witness for C6: a string in place of the array, and an empty method name. -/
theorem sendRequest_invalid_never_sends_witness :
    sends (sendRequest sampleWorld init "ping" (Json.str "no array") true (some 5)).trace = []
    ∧ (sendRequest sampleWorld init "ping" (Json.str "no array") true (some 5)).trace
        = [Event.continuation 5 Json.null (Json.str "paramsArray MUST be an array")]
    ∧ sends (sendRequest sampleWorld init "" (Json.arr []) true (some 6)).trace = [] :=
  ⟨(sendRequest_invalid_never_sends sampleWorld init "ping" (Json.str "no array") true (some 5)
      (Or.inl rfl)).1,
    rfl,
    (sendRequest_invalid_never_sends sampleWorld init "" (Json.arr []) true (some 6)
      (Or.inr rfl)).1⟩

/-- C7, as the claim states it, fails: with a `paramsArray` that is not an array
the error passed to the continuation is not the string "params must be an
array", and with an array and an empty method it is not the string "method must
not be empty". -/
theorem sendRequest_error_texts_differ :
    (sendRequest sampleWorld init "ping" (Json.int 3) true (some 5)).trace
        ≠ [Event.continuation 5 Json.null (Json.str "params must be an array")]
    ∧ (sendRequest sampleWorld init "" (Json.arr []) true (some 5)).trace
        ≠ [Event.continuation 5 Json.null (Json.str "method must not be empty")] := by
  constructor <;> simp [sendRequest, reportError, Json.isArray]

/-- C7, amended. The error that `sendRequest` passes to the continuation is the
JSON string "paramsArray MUST be an array" when `paramsArray` is not an array,
and the JSON string "method MUST not be empty" when `paramsArray` is an array
and the method is empty. -/
theorem sendRequest_error_texts
    (env : World H K) (st : JsonRpcProtocol H K) (method : String) (paramsArray : Json)
    (sendOk : Bool) (k : K) :
    (paramsArray.isArray = false →
      (sendRequest env st method paramsArray sendOk (some k)).trace =
        [Event.continuation k Json.null (Json.str "paramsArray MUST be an array")])
    ∧ (paramsArray.isArray = true → method = "" →
      (sendRequest env st method paramsArray sendOk (some k)).trace =
        [Event.continuation k Json.null (Json.str "method MUST not be empty")]) := by
  constructor
  · intro ha
    simp [sendRequest, ha, reportError]
  · intro ha hm
    simp [sendRequest, ha, hm, reportError]

/-- Witness for C7 as amended: a number in place of the array, and an empty method name. -/
theorem sendRequest_error_texts_witness :
    (sendRequest sampleWorld init "ping" (Json.int 3) true (some 5)).trace =
        [Event.continuation 5 Json.null (Json.str "paramsArray MUST be an array")]
    ∧ (sendRequest sampleWorld init "" (Json.arr []) false (some 5)).trace =
        [Event.continuation 5 Json.null (Json.str "method MUST not be empty")] :=
  ⟨(sendRequest_error_texts sampleWorld init "ping" (Json.int 3) true 5).1 rfl,
    (sendRequest_error_texts sampleWorld init "" (Json.arr []) false 5).2 rfl rfl⟩

/-- C8. On an engine that started fresh and has since received any sequence
of calls, a valid `sendRequest` with a continuation puts into the envelope it
hands to `sendJson` the id `c`, where `c` is the number of earlier valid
`sendRequest` calls that carried a continuation (so the ids are 0, 1, 2, ... in
the order of these calls), records the continuation under key `c` and sets the
counter to `c + 1`. A valid `sendRequest` without a continuation, in any state,
hands over an envelope with no "id" key and leaves the state, with its counter
and its pending table, unchanged. -/
theorem sendRequest_allocates_ids_in_order
    (env : World H K) (earlier : List (Call H K)) (st : JsonRpcProtocol H K)
    (method : String) (paramsArray : Json) (sendOk : Bool) (k : K)
    (hp : paramsArray.isArray = true) (hm : method ≠ "") :
    (∃ envelope rest,
        (sendRequest env (performAll env init earlier).1 method paramsArray sendOk
            (some k)).trace = Event.sendJson envelope :: rest
        ∧ sends rest = []
        ∧ envelope.hasMember "id" = true
        ∧ envelope.get "id" = Json.int (earlier.countP allocatesId : Nat))
    ∧ (sendRequest env (performAll env init earlier).1 method paramsArray sendOk
          (some k)).st.mCurrentRequests (earlier.countP allocatesId : Nat) = some k
    ∧ (sendRequest env (performAll env init earlier).1 method paramsArray sendOk
          (some k)).st.mCurrentId = (earlier.countP allocatesId : Nat) + 1
    ∧ (∃ envelope,
        (sendRequest env st method paramsArray sendOk none).trace = [Event.sendJson envelope]
        ∧ envelope.hasMember "id" = false)
    ∧ (sendRequest env st method paramsArray sendOk none).st = st := by
  have hc : (performAll env init earlier).1.mCurrentId = (earlier.countP allocatesId : Nat) := by
    rw [performAll_mCurrentId]
    simp [init]
  refine ⟨?_, ?_, ?_, ?_, ?_⟩
  · cases sendOk
    · refine ⟨(((Json.null.set "jsonrpc" (Json.str "2.0")).set "method"
          (Json.str method)).set "params" paramsArray).set "id"
          (Json.int (performAll env init earlier).1.mCurrentId),
        [Event.continuation k Json.null (Json.str "send failed")], ?_, rfl, ?_, ?_⟩
      · simp [sendRequest, hp, hm, reportError]
      · cases paramsArray <;>
          simp [Json.set, Json.setMember, Json.hasMember, Json.lookup]
      · cases paramsArray <;>
          simp [Json.set, Json.setMember, Json.get, Json.lookup, hc]
    · refine ⟨(((Json.null.set "jsonrpc" (Json.str "2.0")).set "method"
          (Json.str method)).set "params" paramsArray).set "id"
          (Json.int (performAll env init earlier).1.mCurrentId), [], ?_, rfl, ?_, ?_⟩
      · simp [sendRequest, hp, hm]
      · cases paramsArray <;>
          simp [Json.set, Json.setMember, Json.hasMember, Json.lookup]
      · cases paramsArray <;>
          simp [Json.set, Json.setMember, Json.get, Json.lookup, hc]
  · rw [sendRequest_st_continuation env _ method paramsArray sendOk k hp hm]
    simp [hc]
  · rw [sendRequest_st_continuation env _ method paramsArray sendOk k hp hm]
    simp [hc]
  · cases sendOk
    · refine ⟨((Json.null.set "jsonrpc" (Json.str "2.0")).set "method"
          (Json.str method)).set "params" paramsArray,
        by simp [sendRequest, hp, hm, reportError], ?_⟩
      cases paramsArray <;>
        simp [Json.set, Json.setMember, Json.hasMember, Json.lookup]
    · refine ⟨((Json.null.set "jsonrpc" (Json.str "2.0")).set "method"
          (Json.str method)).set "params" paramsArray,
        by simp [sendRequest, hp, hm], ?_⟩
      cases paramsArray <;>
        simp [Json.set, Json.setMember, Json.hasMember, Json.lookup]
  · cases sendOk <;> simp [sendRequest, hp, hm, reportError]

/-- Witness for C8: after two requests with a continuation, a notification and a
rejected call, the next request gets id 2. -/
theorem sendRequest_allocates_ids_in_order_witness :
    (sendRequest sampleWorld
        (performAll sampleWorld init
          [Call.sendRequest "a" (Json.arr []) true (some 1),
            Call.sendRequest "note" (Json.arr []) true none,
            Call.sendRequest "" (Json.arr []) true (some 9),
            Call.sendRequest "b" (Json.arr []) false (some 2)]).1
        "c" (Json.arr []) true (some 3)).st.mCurrentRequests 2 = some 3
    ∧ (sendRequest sampleWorld
        (performAll sampleWorld init
          [Call.sendRequest "a" (Json.arr []) true (some 1),
            Call.sendRequest "note" (Json.arr []) true none,
            Call.sendRequest "" (Json.arr []) true (some 9),
            Call.sendRequest "b" (Json.arr []) false (some 2)]).1
        "c" (Json.arr []) true (some 3)).st.mCurrentId = 3
    ∧ (sends (sendRequest sampleWorld
        (performAll sampleWorld init
          [Call.sendRequest "a" (Json.arr []) true (some 1),
            Call.sendRequest "note" (Json.arr []) true none,
            Call.sendRequest "" (Json.arr []) true (some 9),
            Call.sendRequest "b" (Json.arr []) false (some 2)]).1
        "c" (Json.arr []) true (some 3)).trace).map (fun envelope => envelope.get "id")
      = [Json.int 2] :=
  ⟨(sendRequest_allocates_ids_in_order sampleWorld
      [Call.sendRequest "a" (Json.arr []) true (some 1),
        Call.sendRequest "note" (Json.arr []) true none,
        Call.sendRequest "" (Json.arr []) true (some 9),
        Call.sendRequest "b" (Json.arr []) false (some 2)]
      init "c" (Json.arr []) true 3 rfl (by decide)).2.1,
    (sendRequest_allocates_ids_in_order sampleWorld
      [Call.sendRequest "a" (Json.arr []) true (some 1),
        Call.sendRequest "note" (Json.arr []) true none,
        Call.sendRequest "" (Json.arr []) true (some 9),
        Call.sendRequest "b" (Json.arr []) false (some 2)]
      init "c" (Json.arr []) true 3 rfl (by decide)).2.2.1,
    rfl⟩

/-- C9. A complete line that parses to a response (an object with no "method"
key and with a "result" or an "error" key) whose "id" is missing, is not an
integer, or is an integer with no entry in the pending table: the dispatch of
the line calls no continuation and no send (it has no effect at all), leaves the
engine state, with its pending table and its id counter, unchanged and raises
nothing, and `parseMessage` goes on with the rest of the buffer exactly as if
the line had not been there. -/
theorem parseMessage_drops_an_unmatched_response
    (env : World H K) (st : JsonRpcProtocol H K) (line rest : List Char)
    (ms : List (String × Json))
    (hnl : '\n' ∉ line) (hne : line ≠ [])
    (hparse : env.parse line = some (Json.obj ms))
    (hmethod : Json.lookup "method" ms = none)
    (hkind : (Json.lookup "result" ms).isSome ∨ (Json.lookup "error" ms).isSome)
    (hid : Json.lookup "id" ms = none
      ∨ (∃ v, Json.lookup "id" ms = some v ∧ v.isInt = false)
      ∨ (∃ i, Json.lookup "id" ms = some (Json.int i) ∧ st.mCurrentRequests i = none)) :
    dispatch env st (Json.obj ms) = { st := st, trace := [], raised := false }
    ∧ parseMessage env st (line ++ '\n' :: rest) = parseMessage env st rest := by
  have hd : dispatch env st (Json.obj ms) = { st := st, trace := [], raised := false } := by
    have hk : ((Json.obj ms).hasMember "error" || (Json.obj ms).hasMember "result") = true := by
      rcases hkind with h | h <;> simp [Json.hasMember, h]
    simp only [dispatch, Json.isMember, hmethod, Option.isSome_none, hk, ↓reduceIte,
      dispatchResponse]
    rcases hid with hl | ⟨v, hl, hv⟩ | ⟨i, hl, hi⟩
    · simp [Json.hasMember, hl]
    · simp [Json.hasMember, Json.get, hl, hv]
    · simp [Json.hasMember, Json.get, hl, Json.isInt, Json.asInt, hi]
  refine ⟨hd, ?_⟩
  rw [parseMessage_line env st line rest (Json.obj ms) hnl hne hparse (by rw [hd]), hd]
  simp

/-- Witness for C9: with request 0 pending, a response for id 5 is passed over
and the next line is read; so is a response with a string id, and so is a
response without id. -/
theorem parseMessage_drops_an_unmatched_response_witness :
    parseMessage sampleWorld
        (sendRequest sampleWorld init "ping" (Json.arr []) true (some 7)).st
        ("\x7b\"id\":5,\"result\":1\x7d".toList ++
          '\n' :: "\x7b\"id\":0,\"result\":2\x7d\n".toList)
      = parseMessage sampleWorld
        (sendRequest sampleWorld init "ping" (Json.arr []) true (some 7)).st
        "\x7b\"id\":0,\"result\":2\x7d\n".toList
    ∧ parseMessage sampleWorld
        (sendRequest sampleWorld init "ping" (Json.arr []) true (some 7)).st
        ("\x7b\"id\":\"0\",\"error\":null\x7d".toList ++
          '\n' :: "\x7b\"id\":0,\"result\":2\x7d\n".toList)
      = parseMessage sampleWorld
        (sendRequest sampleWorld init "ping" (Json.arr []) true (some 7)).st
        "\x7b\"id\":0,\"result\":2\x7d\n".toList
    ∧ parseMessage sampleWorld
        (sendRequest sampleWorld init "ping" (Json.arr []) true (some 7)).st
        ("\x7b\"result\":2\x7d".toList ++ '\n' :: "\x7b\"id\":0,\"result\":2\x7d\n".toList)
      = parseMessage sampleWorld
        (sendRequest sampleWorld init "ping" (Json.arr []) true (some 7)).st
        "\x7b\"id\":0,\"result\":2\x7d\n".toList
    ∧ continuationCalls (parseMessage sampleWorld
        (sendRequest sampleWorld init "ping" (Json.arr []) true (some 7)).st
        "\x7b\"id\":0,\"result\":2\x7d\n".toList).trace = [(7, Json.int 2, Json.null)] :=
  ⟨(parseMessage_drops_an_unmatched_response sampleWorld
      (sendRequest sampleWorld init "ping" (Json.arr []) true (some 7)).st
      "\x7b\"id\":5,\"result\":1\x7d".toList "\x7b\"id\":0,\"result\":2\x7d\n".toList
      [("id", Json.int 5), ("result", Json.int 1)]
      (by decide) (by decide) rfl rfl (Or.inl rfl) (Or.inr (Or.inr ⟨5, rfl, rfl⟩))).2,
    (parseMessage_drops_an_unmatched_response sampleWorld
      (sendRequest sampleWorld init "ping" (Json.arr []) true (some 7)).st
      "\x7b\"id\":\"0\",\"error\":null\x7d".toList
      "\x7b\"id\":0,\"result\":2\x7d\n".toList
      [("id", Json.str "0"), ("error", Json.null)]
      (by decide) (by decide) rfl rfl (Or.inr rfl)
      (Or.inr (Or.inl ⟨Json.str "0", rfl, rfl⟩))).2,
    (parseMessage_drops_an_unmatched_response sampleWorld
      (sendRequest sampleWorld init "ping" (Json.arr []) true (some 7)).st
      "\x7b\"result\":2\x7d".toList "\x7b\"id\":0,\"result\":2\x7d\n".toList
      [("result", Json.int 2)]
      (by decide) (by decide) rfl rfl (Or.inl rfl) (Or.inl rfl)).2,
    rfl⟩

/-- C10. For a method name `m` that has no handler yet and handlers `h1`, `h2`:
after `setRpcCallback(m, h1)` followed by `setRpcCallback(m, h2)` the handler
table binds `m` to `h1` and binds every other name as before, and it still binds
`m` to `h1` after any further sequence of calls; so a later inbound request line
for `m` calls `h1` exactly once and calls no other handler. In any state the
second registration changes nothing. -/
theorem setRpcCallback_keeps_the_first_handler
    (env : World H K) (st : JsonRpcProtocol H K) (m : String) (h1 h2 : H)
    (hfree : st.mCallbacks m = none) :
    ((st.setRpcCallback m h1).setRpcCallback m h2).mCallbacks m = some h1
    ∧ (∀ other, other ≠ m →
        ((st.setRpcCallback m h1).setRpcCallback m h2).mCallbacks other = st.mCallbacks other)
    ∧ (∀ later : List (Call H K),
        (performAll env ((st.setRpcCallback m h1).setRpcCallback m h2) later).1.mCallbacks m
          = some h1)
    ∧ (∀ (later : List (Call H K)) (line : List Char) (ms : List (String × Json)),
        '\n' ∉ line → line ≠ [] → env.parse line = some (Json.obj ms) →
        Json.lookup "method" ms = some (Json.str m) →
        handlerCalls (parseMessage env
            (performAll env ((st.setRpcCallback m h1).setRpcCallback m h2) later).1
            (line ++ ['\n'])).trace =
          [(h1, if (Json.obj ms).hasMember "params" && ((Json.obj ms).get "params").isArray
                then (Json.obj ms).get "params" else Json.arr [])])
    ∧ (∀ st0 : JsonRpcProtocol H K,
        (st0.setRpcCallback m h1).setRpcCallback m h2 = st0.setRpcCallback m h1) := by
  have hfirst : (st.setRpcCallback m h1).mCallbacks m = some h1 := by
    simp [setRpcCallback, hfree]
  have hsecond : ∀ st0 : JsonRpcProtocol H K,
      (st0.setRpcCallback m h1).setRpcCallback m h2 = st0.setRpcCallback m h1 := by
    intro st0
    cases h0 : st0.mCallbacks m with
    | none =>
      have : (st0.setRpcCallback m h1).mCallbacks m = some h1 := by
        simp [setRpcCallback, h0]
      rw [setRpcCallback.eq_def (st0.setRpcCallback m h1)]
      simp [this]
    | some h =>
      have e1 : st0.setRpcCallback m h1 = st0 := by simp [setRpcCallback, h0]
      rw [e1]
      simp [setRpcCallback, h0]
  have hboth : ((st.setRpcCallback m h1).setRpcCallback m h2).mCallbacks m = some h1 := by
    rw [hsecond]; exact hfirst
  refine ⟨hboth, ?_, ?_, ?_, hsecond⟩
  · intro other hne
    rw [hsecond]
    simp [setRpcCallback, hfree, hne]
  · intro later
    exact performAll_keeps_binding env later m h1 _ hboth
  · intro later line ms hnl hne hparse hmethod
    exact (parseMessage_request_line env _ line ms m h1 hnl hne hparse hmethod
      (performAll_keeps_binding env later m h1 _ hboth)).1

/-- Witness for C10: "echo" is bound to the handler "first"; two later attempts
to bind it to "fail" change nothing. -/
theorem setRpcCallback_keeps_the_first_handler_witness :
    ((init.setRpcCallback "echo" "first").setRpcCallback "echo" "fail" :
        JsonRpcProtocol String Nat).mCallbacks "echo" = some "first"
    ∧ handlerCalls (parseMessage sampleWorld
        (performAll sampleWorld
          ((init.setRpcCallback "echo" "first").setRpcCallback "echo" "fail")
          [Call.setRpcCallback "echo" "fail",
            Call.sendRequest "ping" (Json.arr []) true (some 1)]).1
        ("\x7b\"method\":\"echo\",\"params\":[4]\x7d".toList ++ ['\n'])).trace
      = [("first", Json.arr [Json.int 4])] :=
  ⟨(setRpcCallback_keeps_the_first_handler sampleWorld init "echo" "first" "fail" rfl).1,
    (setRpcCallback_keeps_the_first_handler sampleWorld init "echo" "first" "fail" rfl).2.2.2.1
      [Call.setRpcCallback "echo" "fail", Call.sendRequest "ping" (Json.arr []) true (some 1)]
      "\x7b\"method\":\"echo\",\"params\":[4]\x7d".toList
      [("method", Json.str "echo"), ("params", Json.arr [Json.int 4])]
      (by decide) (by decide) rfl rfl⟩

/-- C11. A complete request line that has an "id" key and a string "method"
for which no handler is registered: for that line `parseMessage` hands exactly
one envelope to the socket and has no other effect; the envelope has the id of
the request under "id", the string "RPC callback for method (name) not found",
with the name in single quotes, under "error", and no "result" key; the pass
then goes on with the rest of the buffer in the same state. -/
theorem parseMessage_answers_an_unknown_method
    (env : World H K) (st : JsonRpcProtocol H K) (line rest : List Char)
    (ms : List (String × Json)) (name : String) (idv : Json)
    (hnl : '\n' ∉ line) (hne : line ≠ [])
    (hparse : env.parse line = some (Json.obj ms))
    (hmethod : Json.lookup "method" ms = some (Json.str name))
    (hid : Json.lookup "id" ms = some idv)
    (hunbound : st.mCallbacks name = none) :
    ∃ envelope,
      parseMessage env st (line ++ '\n' :: rest) =
        { parseMessage env st rest with
          trace := Event.socketSend envelope :: (parseMessage env st rest).trace }
      ∧ envelope.hasMember "id" = true
      ∧ envelope.get "id" = idv
      ∧ envelope.get "error" =
          Json.str ("RPC callback for method \x27" ++ name ++ "\x27 not found")
      ∧ envelope.hasMember "result" = false := by
  have hd := dispatch_request_unbound env st ms name idv hmethod hid hunbound
  have k1 : ("id" : String) ≠ "error" := by decide
  have k2 : ("result" : String) ≠ "error" := by decide
  have k3 : ("result" : String) ≠ "id" := by decide
  refine ⟨((Json.null.set "jsonrpc" (Json.str "2.0")).set "id" idv).set "error"
      (Json.str ("RPC callback for method \x27" ++ name ++ "\x27 not found")),
    ?_, ?_, ?_, get_set_same _ _ _, ?_⟩
  · rw [parseMessage_line env st line rest (Json.obj ms) hnl hne hparse (by rw [hd]), hd]
    rfl
  · rw [hasMember_set_other _ _ _ _ k1]
    exact hasMember_set_same _ _ _
  · rw [get_set_other _ _ _ _ k1]
    exact get_set_same _ _ _
  · rw [hasMember_set_other _ _ _ _ k2, hasMember_set_other _ _ _ _ k3]
    rfl

/-- Witness for C11: a request with id 7 for the method "nope" on a fresh
engine. -/
theorem parseMessage_answers_an_unknown_method_witness :
    ∃ envelope,
      (parseMessage sampleWorld init
          ("\x7b\"method\":\"nope\",\"id\":7\x7d".toList ++ '\n' :: [])).trace
        = [Event.socketSend envelope]
      ∧ envelope.get "id" = Json.int 7
      ∧ envelope.get "error" = Json.str "RPC callback for method \x27nope\x27 not found"
      ∧ envelope.hasMember "result" = false :=
  match parseMessage_answers_an_unknown_method sampleWorld init
      "\x7b\"method\":\"nope\",\"id\":7\x7d".toList []
      [("method", Json.str "nope"), ("id", Json.int 7)] "nope" (Json.int 7)
      (by decide) (by decide) rfl rfl rfl rfl with
  | ⟨envelope, h1, _, h3, h4, h5⟩ =>
    ⟨envelope, (congrArg PassResult.trace h1).trans rfl, h3, h4, h5⟩

/-- C12, as the claim states it, fails: the request line has the "id" 3 and
names a method whose handler raises. The handler is called, the catch block
runs and nothing is sent, although the request has an "id" key. -/
theorem parseMessage_raising_handler_sends_nothing :
    handlerCalls (parseMessage raisingWorld (init.setRpcCallback "raise" "raise")
        ("\x7b\"method\":\"raise\",\"id\":3\x7d".toList ++ ['\n'])).trace
      = [("raise", Json.arr [])]
    ∧ sends (parseMessage raisingWorld (init.setRpcCallback "raise" "raise")
        ("\x7b\"method\":\"raise\",\"id\":3\x7d".toList ++ ['\n'])).trace = []
    ∧ (parseMessage raisingWorld (init.setRpcCallback "raise" "raise")
        ("\x7b\"method\":\"raise\",\"id\":3\x7d".toList ++ ['\n'])).caught = true :=
  ⟨rfl, rfl, rfl⟩

/-- C12, amended. A complete request line (an object with a "method" key),
alone in the buffer. When the request has no "id" key, `parseMessage` hands
nothing to the socket or to `sendJson`, whether the method has no handler, the
handler reports an error, the handler returns a result, the handler raises, or
the request is malformed. When the request has an "id" key and the handler, if
one is called, returns, exactly one envelope is sent: the envelope that
`processRequest` returns, which carries the id of the request, "jsonrpc" equal
to "2.0" and exactly one of "result" and "error". When the handler raises,
nothing is sent, with or without an "id" key. -/
theorem parseMessage_responds_only_to_requests_with_id
    (env : World H K) (st : JsonRpcProtocol H K) (line : List Char)
    (ms : List (String × Json))
    (hnl : '\n' ∉ line) (hne : line ≠ [])
    (hparse : env.parse line = some (Json.obj ms))
    (hmethod : (Json.lookup "method" ms).isSome = true) :
    (Json.lookup "id" ms = none → sends (parseMessage env st (line ++ ['\n'])).trace = [])
    ∧ (∀ idv, Json.lookup "id" ms = some idv →
        (∀ name h, Json.lookup "method" ms = some (Json.str name) →
          st.mCallbacks name = some h →
          env.callHandler h
              (if (Json.obj ms).hasMember "params" && ((Json.obj ms).get "params").isArray
                then (Json.obj ms).get "params" else Json.arr [])
            ≠ HandlerOutcome.raised) →
        ∃ envelope, sends (parseMessage env st (line ++ ['\n'])).trace = [envelope]
          ∧ (parseMessage env st (line ++ ['\n'])).trace =
              (processRequest env st (Json.obj ms)).1 ++ [Event.socketSend envelope]
          ∧ (processRequest env st (Json.obj ms)).2 = some envelope
          ∧ envelope.hasMember "id" = true
          ∧ envelope.get "id" = idv
          ∧ envelope.get "jsonrpc" = Json.str "2.0"
          ∧ envelope.hasMember "result" = !envelope.hasMember "error")
    ∧ (∀ name h, Json.lookup "method" ms = some (Json.str name) →
        st.mCallbacks name = some h →
        env.callHandler h
            (if (Json.obj ms).hasMember "params" && ((Json.obj ms).get "params").isArray
              then (Json.obj ms).get "params" else Json.arr [])
          = HandlerOutcome.raised →
        sends (parseMessage env st (line ++ ['\n'])).trace = []
        ∧ (parseMessage env st (line ++ ['\n'])).caught = true) := by
  rw [parseMessage_single_line env st line (Json.obj ms) hnl hne hparse]
  simp only
  refine ⟨?_, ?_, ?_⟩
  · intro hid
    rw [dispatch_request_sends env st ms hmethod, hid]
    cases (processRequest env st (Json.obj ms)).2 <;> rfl
  · intro idv hid hreturns
    obtain ⟨envelope, he⟩ := processRequest_returns_unless_raised env st ms hreturns
    have hpr : processRequest env st (Json.obj ms)
        = ((processRequest env st (Json.obj ms)).1, some envelope) := by
      rw [← he]
    have hkeys := processRequest_envelope env st (Json.obj ms) _ envelope hpr
    have hhas : (Json.obj ms).hasMember "id" = true := by simp [Json.hasMember, hid]
    refine ⟨envelope, ?_, ?_, he, by rw [hkeys.2.2.1]; exact hhas, ?_, hkeys.2.1, hkeys.1⟩
    · rw [dispatch_request_sends env st ms hmethod, he, hid]; rfl
    · unfold dispatch
      simp only [Json.isMember, hmethod]
      rw [hpr]
      simp [hhas]
    · rw [hkeys.2.2.2 hhas]
      simp [Json.get, hid]
  · intro name h hm hbound hraised
    rw [dispatch_request_raised env st ms name h hm hbound hraised]
    exact ⟨rfl, rfl⟩

/-- Witness for C12 as amended: notifications for a method without a handler,
for a handler that reports an error and for a handler that returns a result send
nothing; the request with id 3 for the failing handler is answered once, with
the error of the handler; the request with id 3 for a handler that raises is not
answered. -/
theorem parseMessage_responds_only_to_requests_with_id_witness :
    sends (parseMessage sampleWorld
        ((init.setRpcCallback "fail" "fail").setRpcCallback "echo" "echo")
        ("\x7b\"method\":\"nope\"\x7d".toList ++ ['\n'])).trace = []
    ∧ sends (parseMessage sampleWorld
        ((init.setRpcCallback "fail" "fail").setRpcCallback "echo" "echo")
        ("\x7b\"method\":\"fail\"\x7d".toList ++ ['\n'])).trace = []
    ∧ sends (parseMessage sampleWorld
        ((init.setRpcCallback "fail" "fail").setRpcCallback "echo" "echo")
        ("\x7b\"method\":\"echo\",\"params\":[1]\x7d".toList ++ ['\n'])).trace = []
    ∧ (∃ envelope, sends (parseMessage sampleWorld
          ((init.setRpcCallback "fail" "fail").setRpcCallback "echo" "echo")
          ("\x7b\"method\":\"fail\",\"id\":3\x7d".toList ++ ['\n'])).trace = [envelope]
        ∧ envelope.get "id" = Json.int 3
        ∧ envelope.get "jsonrpc" = Json.str "2.0")
    ∧ sends (parseMessage raisingWorld (init.setRpcCallback "raise" "raise")
        ("\x7b\"method\":\"raise\",\"id\":3\x7d".toList ++ ['\n'])).trace = [] :=
  ⟨(parseMessage_responds_only_to_requests_with_id sampleWorld
      ((init.setRpcCallback "fail" "fail").setRpcCallback "echo" "echo")
      "\x7b\"method\":\"nope\"\x7d".toList [("method", Json.str "nope")]
      (by decide) (by decide) rfl rfl).1 rfl,
    (parseMessage_responds_only_to_requests_with_id sampleWorld
      ((init.setRpcCallback "fail" "fail").setRpcCallback "echo" "echo")
      "\x7b\"method\":\"fail\"\x7d".toList [("method", Json.str "fail")]
      (by decide) (by decide) rfl rfl).1 rfl,
    (parseMessage_responds_only_to_requests_with_id sampleWorld
      ((init.setRpcCallback "fail" "fail").setRpcCallback "echo" "echo")
      "\x7b\"method\":\"echo\",\"params\":[1]\x7d".toList
      [("method", Json.str "echo"), ("params", Json.arr [Json.int 1])]
      (by decide) (by decide) rfl rfl).1 rfl,
    match (parseMessage_responds_only_to_requests_with_id sampleWorld
        ((init.setRpcCallback "fail" "fail").setRpcCallback "echo" "echo")
        "\x7b\"method\":\"fail\",\"id\":3\x7d".toList
        [("method", Json.str "fail"), ("id", Json.int 3)]
        (by decide) (by decide) rfl rfl).2.1 (Json.int 3) rfl
        (by intro name h _ _; simp only [sampleWorld]; split <;> simp) with
    | ⟨envelope, h1, _, _, _, h5, h6, _⟩ => ⟨envelope, h1, h5, h6⟩,
    ((parseMessage_responds_only_to_requests_with_id raisingWorld
      (init.setRpcCallback "raise" "raise")
      "\x7b\"method\":\"raise\",\"id\":3\x7d".toList
      [("method", Json.str "raise"), ("id", Json.int 3)]
      (by decide) (by decide) rfl rfl).2.2 "raise" "raise" rfl rfl rfl).1⟩

/-- C13. For a request whose "method" is a string that has a handler, when the
handler returns `(result, error)`: `processRequest` returns an envelope that
carries "result", equal to the result of the handler, and no "error" when that
result is not null, and that otherwise carries "error", equal to the error of
the handler (null when the handler set neither), and no "result". When the
method has no handler the envelope carries the error text for a missing handler
and no "result". And every envelope `processRequest` returns, for any request,
has exactly one of the keys "result" and "error". -/
theorem processRequest_result_or_error
    (env : World H K) (st : JsonRpcProtocol H K) (ms : List (String × Json)) (name : String)
    (hmethod : Json.lookup "method" ms = some (Json.str name)) :
    (∀ (h : H) (result error : Json), st.mCallbacks name = some h →
        env.callHandler h
            (if (Json.obj ms).hasMember "params" && ((Json.obj ms).get "params").isArray
              then (Json.obj ms).get "params" else Json.arr [])
          = HandlerOutcome.returned result error →
        ∃ envelope,
          processRequest env st (Json.obj ms) =
            ([Event.handler h
                (if (Json.obj ms).hasMember "params" && ((Json.obj ms).get "params").isArray
                  then (Json.obj ms).get "params" else Json.arr [])],
              some envelope)
          ∧ (result.isNull = false →
              envelope.get "result" = result
              ∧ envelope.hasMember "result" = true ∧ envelope.hasMember "error" = false)
          ∧ (result.isNull = true →
              envelope.get "error" = error
              ∧ envelope.hasMember "error" = true ∧ envelope.hasMember "result" = false))
    ∧ (st.mCallbacks name = none →
        ∃ envelope,
          processRequest env st (Json.obj ms) = ([], some envelope)
          ∧ envelope.get "error" =
              Json.str ("RPC callback for method \x27" ++ name ++ "\x27 not found")
          ∧ envelope.hasMember "error" = true ∧ envelope.hasMember "result" = false)
    ∧ (∀ (request : Json) (events : List (Event H K)) (envelope : Json),
        processRequest env st request = (events, some envelope) →
        envelope.hasMember "result" = !envelope.hasMember "error") := by
  refine ⟨?_, ?_, ?_⟩
  · intro h result error hbound hreturned
    have hget : (Json.obj ms).get "method" = Json.str name := by simp [Json.get, hmethod]
    have hhas : (Json.obj ms).hasMember "method" = true := by simp [Json.hasMember, hmethod]
    obtain ⟨s1, s2, _, _, _⟩ :=
      response_start (Json.lookup "id" ms).isSome ((Json.obj ms).get "id")
    obtain ⟨f1, f2⟩ := finishResponse_keys _ result error s1 s2
    refine ⟨_, ?_, f1, f2⟩
    unfold processRequest
    simp only [Json.isMember, hhas, hget, hbound, Bool.not_true, Bool.false_eq_true, ↓reduceIte]
    rw [hreturned]
  · intro hunbound
    have hget : (Json.obj ms).get "method" = Json.str name := by simp [Json.get, hmethod]
    have hhas : (Json.obj ms).hasMember "method" = true := by simp [Json.hasMember, hmethod]
    obtain ⟨s1, s2, _, _, _⟩ :=
      response_start (Json.lookup "id" ms).isSome ((Json.obj ms).get "id")
    obtain ⟨_, f2⟩ := finishResponse_keys _ Json.null
      (Json.str ("RPC callback for method \x27" ++ name ++ "\x27 not found")) s1 s2
    refine ⟨_, ?_, f2 rfl⟩
    unfold processRequest
    simp only [Json.isMember, hhas, hget, hunbound, Bool.not_true, Bool.false_eq_true,
      ↓reduceIte]
  · intro request events envelope hpr
    exact (processRequest_envelope env st request events envelope hpr).1

/-- Witness for C13: the handler "echo" returns its parameters as the result,
the handler "fail" returns an error and a null result. -/
theorem processRequest_result_or_error_witness :
    (∃ envelope,
      processRequest sampleWorld (init.setRpcCallback "echo" "echo")
          (Json.obj [("method", Json.str "echo"), ("params", Json.arr [Json.int 1])])
        = ([Event.handler "echo" (Json.arr [Json.int 1])], some envelope)
      ∧ envelope.get "result" = Json.arr [Json.int 1]
      ∧ envelope.hasMember "error" = false)
    ∧ (∃ envelope,
      processRequest sampleWorld (init.setRpcCallback "fail" "fail")
          (Json.obj [("method", Json.str "fail"), ("id", Json.int 4)])
        = ([Event.handler "fail" (Json.arr [])], some envelope)
      ∧ envelope.get "error" = Json.str "failed"
      ∧ envelope.hasMember "result" = false) :=
  ⟨match (processRequest_result_or_error sampleWorld (init.setRpcCallback "echo" "echo")
        [("method", Json.str "echo"), ("params", Json.arr [Json.int 1])] "echo" rfl).1
        "echo" (Json.arr [Json.int 1]) Json.null rfl rfl with
    | ⟨envelope, h1, h2, _⟩ => ⟨envelope, h1, (h2 rfl).1, (h2 rfl).2.2⟩,
   match (processRequest_result_or_error sampleWorld (init.setRpcCallback "fail" "fail")
        [("method", Json.str "fail"), ("id", Json.int 4)] "fail" rfl).1
        "fail" Json.null (Json.str "failed") rfl rfl with
    | ⟨envelope, h1, _, h3⟩ => ⟨envelope, h1, (h3 rfl).1, (h3 rfl).2.2⟩⟩

/-- C16. `processRequest` on a request (an object) with no "method" key returns
an envelope whose "error" is the object with "code" -1 and "message" "missing
(method) parameter", the word method in single quotes; on a request whose
"method" is not a string it returns an envelope whose "error" is the object with
"code" -1 and "message" "(method) parameter must be a string". In both cases no
handler is called (the call has no effect), the envelope has no "result" key,
has "jsonrpc" equal to "2.0", and has an "id" key exactly when the request has
one, with the value of the request. -/
theorem processRequest_rejects_a_bad_method
    (env : World H K) (st : JsonRpcProtocol H K) (ms : List (String × Json)) :
    (Json.lookup "method" ms = none →
      ∃ envelope,
        processRequest env st (Json.obj ms) = ([], some envelope)
        ∧ envelope.get "error" =
            Json.obj [("code", Json.int (-1)),
              ("message", Json.str "missing \x27method\x27 parameter")]
        ∧ envelope.hasMember "result" = false
        ∧ envelope.get "jsonrpc" = Json.str "2.0"
        ∧ envelope.hasMember "id" = (Json.lookup "id" ms).isSome
        ∧ (∀ idv, Json.lookup "id" ms = some idv → envelope.get "id" = idv))
    ∧ (∀ v, Json.lookup "method" ms = some v → v.isString = false →
      ∃ envelope,
        processRequest env st (Json.obj ms) = ([], some envelope)
        ∧ envelope.get "error" =
            Json.obj [("code", Json.int (-1)),
              ("message", Json.str "\x27method\x27 parameter must be a string")]
        ∧ envelope.hasMember "result" = false
        ∧ envelope.get "jsonrpc" = Json.str "2.0"
        ∧ envelope.hasMember "id" = (Json.lookup "id" ms).isSome
        ∧ (∀ idv, Json.lookup "id" ms = some idv → envelope.get "id" = idv)) := by
  have k1 : ("result" : String) ≠ "error" := by decide
  obtain ⟨s1, s2, _, _, _⟩ :=
    response_start (Json.lookup "id" ms).isSome ((Json.obj ms).get "id")
  have rest : ∀ (message : String) (envelope : Json),
      envelope = ((if (Json.lookup "id" ms).isSome = true then
            (Json.null.set "jsonrpc" (Json.str "2.0")).set "id" ((Json.obj ms).get "id")
          else Json.null.set "jsonrpc" (Json.str "2.0")).setNested "error" "code"
            (Json.int (-1))).setNested "error" "message" (Json.str message) →
      processRequest env st (Json.obj ms) = ([], some envelope) →
      envelope.get "error" = Json.obj [("code", Json.int (-1)), ("message", Json.str message)]
      ∧ envelope.hasMember "result" = false
      ∧ envelope.get "jsonrpc" = Json.str "2.0"
      ∧ envelope.hasMember "id" = (Json.lookup "id" ms).isSome
      ∧ (∀ idv, Json.lookup "id" ms = some idv → envelope.get "id" = idv) := by
    intro message envelope he hpr
    obtain ⟨e1, _, e3⟩ := errorEnvelope_keys _ message s2
    obtain ⟨_, p2, p3, p4⟩ := processRequest_envelope env st (Json.obj ms) [] envelope hpr
    refine ⟨by rw [he]; exact e1, by rw [he, (e3 "result" k1).2]; exact s1, p2,
      by rw [p3]; rfl, ?_⟩
    intro idv hid
    rw [p4 (by simp [Json.hasMember, hid])]
    simp [Json.get, hid]
  constructor
  · intro hmethod
    have hpr : processRequest env st (Json.obj ms) = ([], some
        (((if (Json.lookup "id" ms).isSome = true then
            (Json.null.set "jsonrpc" (Json.str "2.0")).set "id" ((Json.obj ms).get "id")
          else Json.null.set "jsonrpc" (Json.str "2.0")).setNested "error" "code"
            (Json.int (-1))).setNested "error" "message"
            (Json.str "missing \x27method\x27 parameter"))) := by
      unfold processRequest
      simp [Json.isMember, Json.hasMember, hmethod]
    exact ⟨_, hpr, rest _ _ rfl hpr⟩
  · intro v hmethod hv
    have hpr : processRequest env st (Json.obj ms) = ([], some
        (((if (Json.lookup "id" ms).isSome = true then
            (Json.null.set "jsonrpc" (Json.str "2.0")).set "id" ((Json.obj ms).get "id")
          else Json.null.set "jsonrpc" (Json.str "2.0")).setNested "error" "code"
            (Json.int (-1))).setNested "error" "message"
            (Json.str "\x27method\x27 parameter must be a string"))) := by
      unfold processRequest
      cases v <;> simp_all [Json.isMember, Json.hasMember, Json.get, Json.isString]
    exact ⟨_, hpr, rest _ _ rfl hpr⟩

/-- Witness for C16: a request with id 2 and no method, and a request without id
whose method is the number 5. -/
theorem processRequest_rejects_a_bad_method_witness :
    (∃ envelope,
      processRequest sampleWorld init (Json.obj [("id", Json.int 2)]) = ([], some envelope)
      ∧ envelope.get "error" =
          Json.obj [("code", Json.int (-1)),
            ("message", Json.str "missing \x27method\x27 parameter")]
      ∧ envelope.get "id" = Json.int 2)
    ∧ (∃ envelope,
      processRequest sampleWorld init (Json.obj [("method", Json.int 5)]) = ([], some envelope)
      ∧ envelope.get "error" =
          Json.obj [("code", Json.int (-1)),
            ("message", Json.str "\x27method\x27 parameter must be a string")]
      ∧ envelope.hasMember "id" = false) :=
  ⟨match (processRequest_rejects_a_bad_method sampleWorld init [("id", Json.int 2)]).1 rfl with
    | ⟨envelope, h1, h2, _, _, _, h6⟩ => ⟨envelope, h1, h2, h6 (Json.int 2) rfl⟩,
   match (processRequest_rejects_a_bad_method sampleWorld init [("method", Json.int 5)]).2
        (Json.int 5) rfl rfl with
    | ⟨envelope, h1, h2, _, _, h5, _⟩ => ⟨envelope, h1, h2, h5⟩⟩

/-- C14, evaluated at the failing input: a fresh engine sends "ping" with the
continuation 7 and the send fails, then a response with id 0 is read. The
continuation is called for the failed send and, because the entry stayed in the
pending table, a second time for the response. -/
theorem continuation_fires_again_after_a_failed_send :
    continuationCalls (performAll sampleWorld init
        [Call.sendRequest "ping" (Json.arr []) false (some 7),
          Call.parseMessage "\x7b\"id\":0,\"result\":1\x7d\n".toList]).2
      = [(7, Json.null, Json.str "send failed"), (7, Json.int 1, Json.null)] := by
  rfl

/-- C15, evaluated at the failing input: a fresh engine sends "ping" with the
continuation 7 and the send fails. The continuation is told "send failed", and
the pending table still maps the id 0 of the request to the continuation. -/
theorem failed_send_leaves_the_pending_entry :
    continuationCalls
        (sendRequest sampleWorld init "ping" (Json.arr []) false (some 7)).trace
      = [(7, Json.null, Json.str "send failed")]
    ∧ (sendRequest sampleWorld init "ping" (Json.arr []) false (some 7)).st.mCurrentRequests 0
      = some 7 :=
  ⟨rfl, rfl⟩

/-- C18, as the claim states it, fails: the buffer holds an empty line and then
a complete request line for a method that has a handler. The pass calls no
handler and leaves the buffer empty: the request line is lost. -/
theorem parseMessage_blank_line_loses_the_rest :
    (parseMessage sampleWorld (init.setRpcCallback "a" "a")
        ('\n' :: "\x7b\"method\":\"a\"\x7d\n".toList)).trace = []
    ∧ (parseMessage sampleWorld (init.setRpcCallback "a" "a")
        ('\n' :: "\x7b\"method\":\"a\"\x7d\n".toList)).buffer = []
    ∧ handlerCalls (parseMessage sampleWorld (init.setRpcCallback "a" "a")
        "\x7b\"method\":\"a\"\x7d\n".toList).trace = [("a", Json.arr [])] :=
  ⟨rfl, rfl, rfl⟩

/-- C18, amended. When `parseMessage` meets an empty line it ends the pass, and
the bytes of the buffer that follow the empty line are discarded whatever they
are: for a buffer that starts with a newline the pass has no effect, leaves the
state as it was and leaves the buffer empty. -/
theorem parseMessage_blank_line_ends_the_pass
    (env : World H K) (st : JsonRpcProtocol H K) (rest : List Char) :
    parseMessage env st ('\n' :: rest) =
      { st := st, buffer := [], trace := [], caught := false } := by
  rw [parseMessage_unfold]
  simp [getline]

/-- C19. In every state reached from a fresh engine by a sequence of
`setRpcCallback`, `sendRequest` and `parseMessage` calls (the id counter being
an unbounded integer), every key of the pending table is at least 0 and
strictly below the id counter. Hence the pending table has no entry under the
value of the counter, and a further `sendRequest`, which can store only under
that value, leaves every entry of a request that is still pending in place. -/
theorem pending_keys_stay_below_the_counter
    (env : World H K) (calls : List (Call H K)) :
    (∀ i k, (performAll env init calls).1.mCurrentRequests i = some k →
        0 ≤ i ∧ i < (performAll env init calls).1.mCurrentId)
    ∧ (performAll env init calls).1.mCurrentRequests
        (performAll env init calls).1.mCurrentId = none
    ∧ (∀ (method : String) (paramsArray : Json) (sendOk : Bool) (resultCb : Option K)
        (j : Int) (kj : K),
        (performAll env init calls).1.mCurrentRequests j = some kj →
        (sendRequest env (performAll env init calls).1 method paramsArray sendOk
            resultCb).st.mCurrentRequests j = some kj) := by
  have hinv := (performAll_keeps_keys_below env calls init (by simp [init])
    (by intro i k h; simp [init] at h)).2
  refine ⟨hinv, ?_, ?_⟩
  · cases hc : (performAll env init calls).1.mCurrentRequests
        (performAll env init calls).1.mCurrentId with
    | none => rfl
    | some k =>
      have := hinv _ k hc
      omega
  · intro method paramsArray sendOk resultCb j kj hj
    have hlt := hinv j kj hj
    rw [sendRequest_keeps_other_entries env _ method paramsArray sendOk resultCb j (by omega)]
    exact hj

/-- Witness for C19: two requests with continuations, the response to the first
and a handler registration; the one entry left is under key 1, below the
counter 2, and a third request leaves it in place. -/
theorem pending_keys_stay_below_the_counter_witness :
    ((0 : Int) ≤ 1 ∧ (1 : Int) < (performAll sampleWorld init
        [Call.sendRequest "a" (Json.arr []) true (some 1),
          Call.sendRequest "b" (Json.arr []) true (some 2),
          Call.parseMessage "\x7b\"id\":0,\"result\":1\x7d\n".toList,
          Call.setRpcCallback "echo" "echo"]).1.mCurrentId)
    ∧ (sendRequest sampleWorld (performAll sampleWorld init
        [Call.sendRequest "a" (Json.arr []) true (some 1),
          Call.sendRequest "b" (Json.arr []) true (some 2),
          Call.parseMessage "\x7b\"id\":0,\"result\":1\x7d\n".toList,
          Call.setRpcCallback "echo" "echo"]).1
        "c" (Json.arr []) true (some 3)).st.mCurrentRequests 1 = some 2 :=
  ⟨(pending_keys_stay_below_the_counter sampleWorld
      [Call.sendRequest "a" (Json.arr []) true (some 1),
        Call.sendRequest "b" (Json.arr []) true (some 2),
        Call.parseMessage "\x7b\"id\":0,\"result\":1\x7d\n".toList,
        Call.setRpcCallback "echo" "echo"]).1 1 2 rfl,
    (pending_keys_stay_below_the_counter sampleWorld
      [Call.sendRequest "a" (Json.arr []) true (some 1),
        Call.sendRequest "b" (Json.arr []) true (some 2),
        Call.parseMessage "\x7b\"id\":0,\"result\":1\x7d\n".toList,
        Call.setRpcCallback "echo" "echo"]).2.2 "c" (Json.arr []) true (some 3) 1 2 rfl⟩

/-- C20, as the claim states it, fails. In the first buffer the last segment,
a request for "a" without a trailing newline, is accepted by the reader, but the
line before it is rejected: the pass stops at that line, the segment is neither
dispatched nor kept, and the buffer is not empty. In the second buffer the only
segment is the document 7, which the reader accepts and which is not an object:
the pass ends in the catch block and nothing is dispatched. -/
theorem parseMessage_segment_is_not_always_dispatched :
    sampleWorld.parse "\x7b\"method\":\"a\"\x7d".toList
      = some (Json.obj [("method", Json.str "a")])
    ∧ (parseMessage sampleWorld (init.setRpcCallback "a" "a")
        ("x".toList ++ '\n' :: "\x7b\"method\":\"a\"\x7d".toList)).trace = []
    ∧ (parseMessage sampleWorld (init.setRpcCallback "a" "a")
        ("x".toList ++ '\n' :: "\x7b\"method\":\"a\"\x7d".toList)).buffer = "x".toList
    ∧ (parseMessage sampleWorld (init.setRpcCallback "a" "a")
        ("x".toList ++ '\n' :: "\x7b\"method\":\"a\"\x7d".toList)).buffer ≠ []
    ∧ sampleWorld.parse "7".toList = some (Json.int 7)
    ∧ (parseMessage sampleWorld (init.setRpcCallback "a" "a") "7".toList).trace = []
    ∧ (parseMessage sampleWorld (init.setRpcCallback "a" "a") "7".toList).caught = true := by
  refine ⟨rfl, rfl, rfl, ?_, rfl, rfl, rfl⟩
  decide

/-- C20, amended. `parseMessage` does not wait for the newline. For a buffer
that is a sequence of complete lines, each accepted by the reader as a JSON
object, followed by a non-empty last segment without a newline, in a world whose
handlers and continuations return normally (none raises): when the reader
accepts the segment as a JSON object, its document is dispatched in the same
pass, after the documents of the lines, and the buffer is left empty; when the
reader rejects the segment, the segment is what the buffer holds after the
pass. -/
theorem parseMessage_dispatches_a_segment_without_newline
    (env : World H K) (st : JsonRpcProtocol H K) (p : List (List Char)) (seg : List Char)
    (hp : ∀ x ∈ p, x ≠ [] ∧ '\n' ∉ x ∧ ∃ ms, env.parse x = some (Json.obj ms))
    (hhandlers : ∀ h params, env.callHandler h params ≠ HandlerOutcome.raised)
    (hconts : ∀ k result error, env.callContinuation k result error = true)
    (hne : seg ≠ []) (hnl : '\n' ∉ seg) :
    (∀ ms, env.parse seg = some (Json.obj ms) →
      parseMessage env st (joinLines p ++ seg) =
        { st := (dispatchAll env st ((p ++ [seg]).filterMap env.parse)).1,
          buffer := [],
          trace := (dispatchAll env st ((p ++ [seg]).filterMap env.parse)).2,
          caught := false }
      ∧ ((p ++ [seg]).filterMap env.parse).length = p.length + 1)
    ∧ (env.parse seg = none → (parseMessage env st (joinLines p ++ seg)).buffer = seg) := by
  constructor
  · intro ms hparse
    have hr := dispatch_object_not_raised env
      (dispatchAll env st (p.filterMap env.parse)).1 ms hhandlers hconts
    have hlen := filterMap_parse_length env p hp
    refine ⟨?_, ?_⟩
    · rw [joinLines_append p seg env st hp hhandlers hconts,
        parseMessage_tail_accepted env _ seg (Json.obj ms) hnl hne hparse, hr,
        List.filterMap_append, dispatchAll_append]
      simp [List.filterMap_cons, hparse, dispatchAll]
    · rw [List.filterMap_append, List.length_append, hlen]
      simp [List.filterMap_cons, hparse]
  · intro hrejected
    rw [joinLines_append p seg env st hp hhandlers hconts,
      parseMessage_tail_rejected env _ seg hnl hrejected]

/-- Witness for C20 as amended: one complete request line and then a request without a
trailing newline; both handlers are called and nothing is kept. The same
request without its closing brace is kept. -/
theorem parseMessage_dispatches_a_segment_without_newline_witness :
    handlerCalls (parseMessage sampleWorld (init.setRpcCallback "echo" "echo")
        (joinLines ["\x7b\"method\":\"echo\"\x7d".toList] ++
          "\x7b\"method\":\"echo\",\"params\":[2]\x7d".toList)).trace
      = [("echo", Json.arr []), ("echo", Json.arr [Json.int 2])]
    ∧ (parseMessage sampleWorld (init.setRpcCallback "echo" "echo")
        (joinLines ["\x7b\"method\":\"echo\"\x7d".toList] ++
          "\x7b\"method\":\"echo\",\"params\":[2]\x7d".toList)).buffer = []
    ∧ (parseMessage sampleWorld (init.setRpcCallback "echo" "echo")
        (joinLines ["\x7b\"method\":\"echo\"\x7d".toList] ++
          "\x7b\"method\":\"echo\",\"params\":[2]".toList)).buffer
      = "\x7b\"method\":\"echo\",\"params\":[2]".toList := by
  have hlines : ∀ x ∈ ["\x7b\"method\":\"echo\"\x7d".toList],
      x ≠ [] ∧ '\n' ∉ x ∧ ∃ ms, sampleWorld.parse x = some (Json.obj ms) := by
    intro x hx
    simp only [List.mem_singleton] at hx
    subst hx
    exact ⟨by decide, by decide, _, rfl⟩
  have hh : ∀ (h : String) (params : Json),
      sampleWorld.callHandler h params ≠ HandlerOutcome.raised := by
    intro h params; simp only [sampleWorld]; split <;> simp
  have key := ((parseMessage_dispatches_a_segment_without_newline sampleWorld
    (init.setRpcCallback "echo" "echo") ["\x7b\"method\":\"echo\"\x7d".toList]
    "\x7b\"method\":\"echo\",\"params\":[2]\x7d".toList hlines hh
    (by intro k result error; rfl) (by decide) (by decide)).1
    [("method", Json.str "echo"), ("params", Json.arr [Json.int 2])] rfl).1
  refine ⟨by rw [key]; rfl, by rw [key], ?_⟩
  exact (parseMessage_dispatches_a_segment_without_newline sampleWorld
    (init.setRpcCallback "echo" "echo") ["\x7b\"method\":\"echo\"\x7d".toList]
    "\x7b\"method\":\"echo\",\"params\":[2]".toList hlines hh
    (by intro k result error; rfl) (by decide) (by decide)).2 rfl

end Claims

end faf
